import Mathlib

set_option maxRecDepth 8000

namespace DocBot

/-! # Shallow embedding of the Documents_bot core logic

Definitions translated from `bot/utils/schedule.py`, `bot/utils/passport.py`
and `bot/services/extract_passport_data.py`.  Machine integers are `Int`,
strings are `List Char`, fallible operations return `Option`/`Except`. -/

/-- A calendar date, as Python `datetime.date` (year, month 1-12, day 1-31). -/
structure Date where
  year : Nat
  month : Nat
  day : Nat
deriving DecidableEq, Repr

/-- Gregorian leap-year rule (as used by `calendar`/`datetime`). -/
def isLeapYear (y : Nat) : Bool :=
  y % 4 == 0 && (y % 100 != 0 || y % 400 == 0)

/-- Number of days in month `m` of year `y`. -/
def daysInMonth (y m : Nat) : Nat :=
  if m = 2 then (if isLeapYear y then 29 else 28)
  else if m = 4 || m = 6 || m = 9 || m = 11 then 30
  else 31

/-- Model of `d + relativedelta(months=k)`: calendar-month addition, with the day of
month clamped to the length of the target month (dateutil semantics). -/
def addMonths (d : Date) (k : Nat) : Date :=
  let t := d.year * 12 + (d.month - 1) + k
  ⟨t / 12, t % 12 + 1, min d.day (daysInMonth (t / 12) (t % 12 + 1))⟩

/-- Strict chronological order on dates (lexicographic year, month, day). -/
def dateLt (a b : Date) : Bool :=
  decide (a.year < b.year ∨ (a.year = b.year ∧
    (a.month < b.month ∨ (a.month = b.month ∧ a.day < b.day))))

/-- One installment (`bot.models.Payment`). -/
structure Payment where
  month_index : Nat
  due_date : Date
  amount : Int
deriving DecidableEq, Repr

def BASE_MONTHLY : Int := 10000
def SECOND_MONTH_EXTRA : Int := 17000
def THIRD_MONTH_EXTRA : Int := 25000

/-- The per-month nominal amount: the `if month == 1 / 2 / 3 / else` chain in
`build_payment_schedule`. -/
def nominalAmount (month : Nat) : Int :=
  if month = 1 then BASE_MONTHLY
  else if month = 2 then BASE_MONTHLY + SECOND_MONTH_EXTRA
  else if month = 3 then BASE_MONTHLY + THIRD_MONTH_EXTRA
  else BASE_MONTHLY

/-- The `while remaining > 0` loop of `build_payment_schedule`.  `fuel` bounds
the number of iterations; each iteration strictly decreases `remaining` (the
amount paid is at least 1 whenever `remaining > 0`), so `remaining.toNat`
iterations always suffice. -/
def scheduleLoop (start_date : Date) : Nat → Int → Nat → List Payment
  | 0, _, _ => []
  | fuel + 1, remaining, month =>
    if 0 < remaining then
      let m := month + 1
      let amount := min remaining (nominalAmount m)
      { month_index := m, due_date := addMonths start_date (m - 1), amount := amount } ::
        scheduleLoop start_date fuel (remaining - amount) m
    else []

/-- Model of `bot.utils.schedule.build_payment_schedule`. -/
def build_payment_schedule (start_date : Date) (total_amount : Int) : List Payment :=
  scheduleLoop start_date total_amount.toNat total_amount 0

lemma nominalAmount_pos (m : Nat) : 0 < nominalAmount m := by
  unfold nominalAmount BASE_MONTHLY SECOND_MONTH_EXTRA THIRD_MONTH_EXTRA
  split_ifs <;> norm_num

lemma scheduleLoop_nonpos (d : Date) (fuel : Nat) (r : Int) (month : Nat)
    (h : r ≤ 0) : scheduleLoop d fuel r month = [] := by
  cases fuel with
  | zero => rfl
  | succ n =>
    unfold scheduleLoop
    rw [if_neg (by omega)]

/-- Loop invariant of `build_payment_schedule`: sums, positivity, contiguous
month indexes, due dates, per-payment amount formula, non-emptiness. -/
lemma scheduleLoop_spec (d : Date) :
    ∀ fuel (r : Int) (month : Nat), r.toNat ≤ fuel → 0 < r →
      ((scheduleLoop d fuel r month).map Payment.amount).sum = r ∧
      (∀ p ∈ scheduleLoop d fuel r month, 0 < p.amount) ∧
      (scheduleLoop d fuel r month).map Payment.month_index =
        List.range' (month + 1) (scheduleLoop d fuel r month).length ∧
      (∀ i (hi : i < (scheduleLoop d fuel r month).length),
        ((scheduleLoop d fuel r month).get ⟨i, hi⟩).due_date = addMonths d (month + i) ∧
        ((scheduleLoop d fuel r month).get ⟨i, hi⟩).amount =
          min (r - (((scheduleLoop d fuel r month).take i).map Payment.amount).sum)
              (nominalAmount (month + i + 1))) ∧
      scheduleLoop d fuel r month ≠ [] := by
  intro fuel
  induction fuel with
  | zero =>
    intro r month hfuel hr
    omega
  | succ n ih =>
    intro r month hfuel hr
    have hnom : 0 < nominalAmount (month + 1) := nominalAmount_pos _
    set a := min r (nominalAmount (month + 1)) with ha
    have ha_pos : 0 < a := by rw [ha]; exact lt_min hr hnom
    have ha_le : a ≤ r := min_le_left _ _
    have hstep : scheduleLoop d (n + 1) r month =
        { month_index := month + 1, due_date := addMonths d month, amount := a } ::
          scheduleLoop d n (r - a) (month + 1) := by
      rw [scheduleLoop, if_pos hr]
      simp only [Nat.add_sub_cancel]
    by_cases hr' : 0 < r - a
    · have hfuel' : (r - a).toNat ≤ n := by omega
      obtain ⟨ihsum, ihpos, ihidx, ihget, ihne⟩ := ih (r - a) (month + 1) hfuel' hr'
      rw [hstep]
      refine ⟨?_, ?_, ?_, ?_, ?_⟩
      · simp only [List.map_cons, List.sum_cons, ihsum]; ring
      · intro p hp
        rcases List.mem_cons.mp hp with hp | hp
        · simpa [hp] using ha_pos
        · exact ihpos p hp
      · simp only [List.map_cons, List.length_cons, List.range'_succ, ihidx]
      · intro i hi
        cases i with
        | zero =>
          constructor
          · simp
          · simp
        | succ j =>
          have hj : j < (scheduleLoop d n (r - a) (month + 1)).length := by
            simpa using hi
          obtain ⟨hdue, hamt⟩ := ihget j hj
          constructor
          · simp only [List.get_cons_succ]
            rw [hdue]
            congr 1
            omega
          · simp only [List.get_cons_succ, List.take_succ_cons, List.map_cons, List.sum_cons]
            rw [hamt]
            have h1 : month + 1 + j + 1 = month + (j + 1) + 1 := by omega
            rw [h1]
            congr 1
            ring
      · simp
    · have hr0 : r - a = 0 := by omega
      have htail : scheduleLoop d n (r - a) (month + 1) = [] :=
        scheduleLoop_nonpos d n _ _ (le_of_eq hr0)
      rw [hstep, htail]
      have har : a = r := by omega
      refine ⟨?_, ?_, ?_, ?_, ?_⟩
      · simp [har]
      · intro p hp
        rcases List.mem_cons.mp hp with hp | hp
        · simpa [hp] using ha_pos
        · simp at hp
      · simp [List.range'_succ]
      · intro i hi
        simp only [List.length_cons, List.length_nil] at hi
        have : i = 0 := by omega
        subst this
        constructor
        · simp
        · simp
      · simp

/-- Claim C1: for every start date `d` and every `total_amount > 0`,
`build_payment_schedule` terminates with a non-empty list whose amounts are all
positive and sum exactly to the total, whose month indexes run contiguously
`1, 2, …, n`, and whose `k`-th due date equals `d` plus `k-1` calendar months,
so consecutive due dates strictly increase. -/
theorem C1_schedule_invariants (d : Date) (total : Int) (h : 0 < total) :
    build_payment_schedule d total ≠ [] ∧
    ((build_payment_schedule d total).map Payment.amount).sum = total ∧
    (∀ p ∈ build_payment_schedule d total, 0 < p.amount) ∧
    (build_payment_schedule d total).map Payment.month_index =
      List.range' 1 (build_payment_schedule d total).length ∧
    (∀ i (hi : i < (build_payment_schedule d total).length),
      ((build_payment_schedule d total).get ⟨i, hi⟩).due_date = addMonths d i) ∧
    (∀ i (hi : i + 1 < (build_payment_schedule d total).length),
      dateLt (((build_payment_schedule d total).get ⟨i, Nat.lt_of_succ_lt hi⟩).due_date)
             (((build_payment_schedule d total).get ⟨i + 1, hi⟩).due_date) = true) := by
  obtain ⟨hsum, hpos, hidx, hget, hne⟩ :=
    scheduleLoop_spec d total.toNat total 0 le_rfl h
  have hdates : ∀ i (hi : i < (build_payment_schedule d total).length),
      ((build_payment_schedule d total).get ⟨i, hi⟩).due_date = addMonths d i := by
    intro i hi
    have := (hget i hi).1
    simpa using this
  refine ⟨hne, hsum, hpos, by simpa using hidx, hdates, ?_⟩
  intro i hi
  rw [hdates i (Nat.lt_of_succ_lt hi), hdates (i + 1) hi]
  simp only [dateLt, addMonths, decide_eq_true_eq]
  omega

theorem C1_schedule_invariants_witness :
    ((build_payment_schedule ⟨2024, 1, 31⟩ 5000).map Payment.amount).sum = 5000 :=
  (C1_schedule_invariants ⟨2024, 1, 31⟩ 5000 (by norm_num)).2.1

lemma addMonths_zero (d : Date) (hm1 : 1 ≤ d.month) (hm2 : d.month ≤ 12)
    (hd : d.day ≤ daysInMonth d.year d.month) : addMonths d 0 = d := by
  obtain ⟨y, m, dd⟩ := d
  simp only [addMonths] at *
  have h1 : (y * 12 + (m - 1) + 0) / 12 = y := by omega
  have h2 : (y * 12 + (m - 1) + 0) % 12 + 1 = m := by omega
  rw [h1, h2]
  simp only [Date.mk.injEq, true_and]
  omega

/-- Claim C2: the `k`-th amount is `min(remaining, nominal_k)` with nominals
10000/27000/35000 and then 10000; the worked 132000 example; and any total in
`(0, 10000]` yields a single full payment at month 1. -/
theorem C2_nominal_schedule (d : Date) (total : Int) (h : 0 < total)
    (hm1 : 1 ≤ d.month) (hm2 : d.month ≤ 12)
    (hd : d.day ≤ daysInMonth d.year d.month) :
    (∀ i (hi : i < (build_payment_schedule d total).length),
      ((build_payment_schedule d total).get ⟨i, hi⟩).amount =
        min (total - (((build_payment_schedule d total).take i).map Payment.amount).sum)
            (nominalAmount (i + 1))) ∧
    nominalAmount 1 = 10000 ∧ nominalAmount 2 = 27000 ∧ nominalAmount 3 = 35000 ∧
    (∀ k, 4 ≤ k → nominalAmount k = 10000) ∧
    build_payment_schedule ⟨2024, 3, 25⟩ 132000 =
      [⟨1, ⟨2024, 3, 25⟩, 10000⟩, ⟨2, ⟨2024, 4, 25⟩, 27000⟩, ⟨3, ⟨2024, 5, 25⟩, 35000⟩,
       ⟨4, ⟨2024, 6, 25⟩, 10000⟩, ⟨5, ⟨2024, 7, 25⟩, 10000⟩, ⟨6, ⟨2024, 8, 25⟩, 10000⟩,
       ⟨7, ⟨2024, 9, 25⟩, 10000⟩, ⟨8, ⟨2024, 10, 25⟩, 10000⟩, ⟨9, ⟨2024, 11, 25⟩, 10000⟩] ∧
    (total ≤ 10000 → build_payment_schedule d total = [⟨1, d, total⟩]) := by
  obtain ⟨hsum, hpos, hidx, hget, hne⟩ :=
    scheduleLoop_spec d total.toNat total 0 le_rfl h
  refine ⟨?_, by norm_num [nominalAmount, BASE_MONTHLY, SECOND_MONTH_EXTRA],
    by norm_num [nominalAmount, BASE_MONTHLY, SECOND_MONTH_EXTRA],
    by norm_num [nominalAmount, BASE_MONTHLY, THIRD_MONTH_EXTRA], ?_, by decide, ?_⟩
  · intro i hi
    have := (hget i hi).2
    simpa using this
  · intro k hk
    unfold nominalAmount BASE_MONTHLY
    rw [if_neg (by omega), if_neg (by omega), if_neg (by omega)]
  · intro hle
    have ht : ∃ n, total.toNat = n + 1 := ⟨total.toNat - 1, by omega⟩
    obtain ⟨n, hn⟩ := ht
    have hmin : min total (nominalAmount 1) = total := by
      have : nominalAmount 1 = 10000 := by norm_num [nominalAmount, BASE_MONTHLY]
      rw [this]
      omega
    unfold build_payment_schedule
    rw [hn]
    unfold scheduleLoop
    rw [if_pos h]
    simp only [Nat.zero_add, Nat.add_sub_cancel, hmin]
    rw [sub_self, scheduleLoop_nonpos d n 0 1 le_rfl]
    rw [addMonths_zero d hm1 hm2 hd]

theorem C2_nominal_schedule_witness :
    build_payment_schedule ⟨2024, 3, 25⟩ 132000 =
      [⟨1, ⟨2024, 3, 25⟩, 10000⟩, ⟨2, ⟨2024, 4, 25⟩, 27000⟩, ⟨3, ⟨2024, 5, 25⟩, 35000⟩,
       ⟨4, ⟨2024, 6, 25⟩, 10000⟩, ⟨5, ⟨2024, 7, 25⟩, 10000⟩, ⟨6, ⟨2024, 8, 25⟩, 10000⟩,
       ⟨7, ⟨2024, 9, 25⟩, 10000⟩, ⟨8, ⟨2024, 10, 25⟩, 10000⟩,
       ⟨9, ⟨2024, 11, 25⟩, 10000⟩] ∧
    build_payment_schedule ⟨2025, 1, 10⟩ 5000 = [⟨1, ⟨2025, 1, 10⟩, 5000⟩] :=
  ⟨(C2_nominal_schedule ⟨2024, 3, 25⟩ 132000 (by norm_num) (by norm_num) (by norm_num)
      (by decide)).2.2.2.2.2.1,
   (C2_nominal_schedule ⟨2025, 1, 10⟩ 5000 (by norm_num) (by norm_num) (by norm_num)
      (by decide)).2.2.2.2.2.2 (by norm_num)⟩

/-- Claim C10: for every start date and every `total_amount ≤ 0`,
`build_payment_schedule` returns the empty list (no error, no payments). -/
theorem C10_nonpositive_empty (d : Date) (total : Int) (h : total ≤ 0) :
    build_payment_schedule d total = [] := by
  have h0 : total.toNat = 0 := by omega
  unfold build_payment_schedule
  rw [h0]
  rfl

theorem C10_nonpositive_empty_witness :
    build_payment_schedule ⟨2024, 5, 1⟩ 0 = [] ∧
    build_payment_schedule ⟨2024, 5, 1⟩ (-7) = [] :=
  ⟨C10_nonpositive_empty ⟨2024, 5, 1⟩ 0 (by norm_num),
   C10_nonpositive_empty ⟨2024, 5, 1⟩ (-7) (by norm_num)⟩

/-! ## Character and string primitives

OCR/manual text is modelled as `List Char`.  The character classes below model
Python's `str`/`re` behaviour on the alphabets this code handles
(ASCII plus Cyrillic А-Я/а-я/Ё/ё). -/

abbrev Str := List Char

def isDigitChar (c : Char) : Bool := 48 ≤ c.toNat && c.toNat ≤ 57

def isSpaceChar (c : Char) : Bool :=
  c.toNat = 32 || c.toNat = 9 || c.toNat = 10 || c.toNat = 13 ||
  c.toNat = 11 || c.toNat = 12

def isUpperCyr (c : Char) : Bool :=
  (0x410 ≤ c.toNat && c.toNat ≤ 0x42F) || c.toNat = 0x401

def isLowerCyr (c : Char) : Bool :=
  (0x430 ≤ c.toNat && c.toNat ≤ 0x44F) || c.toNat = 0x451

def isAsciiUpper (c : Char) : Bool := 65 ≤ c.toNat && c.toNat ≤ 90

def isAsciiLower (c : Char) : Bool := 97 ≤ c.toNat && c.toNat ≤ 122

def isLetterChar (c : Char) : Bool :=
  isUpperCyr c || isLowerCyr c || isAsciiUpper c || isAsciiLower c

/-- Word character for `re` (`\w` / `\b` boundaries): letter, digit or `_`. -/
def isWordChar (c : Char) : Bool := isLetterChar c || isDigitChar c || c = '_'

/-- The upper/lower case pairs of the alphabets in scope (Cyrillic А-Я/а-я,
Ё/ё, ASCII A-Z/a-z). -/
def casePairs : List (Char × Char) :=
  ((List.range 32).map (fun i => (Char.ofNat (0x410 + i), Char.ofNat (0x430 + i)))) ++
  [('Ё', 'ё')] ++
  ((List.range 26).map (fun i => (Char.ofNat (65 + i), Char.ofNat (97 + i))))

/-- Model of `str.lower()` on the alphabets in scope (identity elsewhere). -/
def lowerChar (c : Char) : Char :=
  ((casePairs.find? (fun p => p.1 == c)).map (fun p => p.2)).getD c

/-- Model of `str.upper()` on the alphabets in scope (identity elsewhere). -/
def upperChar (c : Char) : Char :=
  ((casePairs.find? (fun p => p.2 == c)).map (fun p => p.1)).getD c

def lowerStr (s : Str) : Str := s.map lowerChar

def upperStr (s : Str) : Str := s.map upperChar

/-- Model of `str.capitalize()`: first character upper-cased, the rest lower-cased. -/
def capitalizeStr : Str → Str
  | [] => []
  | c :: t => upperChar c :: lowerStr t

/-- Python `needle in hay` (substring containment). -/
def containsSub : Str → Str → Bool
  | [], needle => needle.isEmpty
  | hay@(_ :: t), needle => needle.isPrefixOf hay || containsSub t needle

/-- Model of `str.strip()`: trim whitespace from both ends. -/
def stripStr (s : Str) : Str :=
  (((s.dropWhile isSpaceChar).reverse).dropWhile isSpaceChar).reverse

def containsDigit (s : Str) : Bool := s.any isDigitChar

/-- Accumulator worker for whitespace splitting (`str.split()` with no
separator: runs of whitespace separate tokens, no empty tokens). -/
def splitWsGo (acc : Str) : Str → List Str
  | [] => if acc.isEmpty then [] else [acc.reverse]
  | c :: t =>
    if isSpaceChar c then
      if acc.isEmpty then splitWsGo [] t else acc.reverse :: splitWsGo [] t
    else splitWsGo (c :: acc) t

def splitWs (s : Str) : List Str := splitWsGo [] s

/-- Model of `sep.join(parts)`. -/
def joinSep (sep : Str) : List Str → Str
  | [] => []
  | [x] => x
  | x :: xs => x ++ sep ++ joinSep sep xs

/-- Split a string at every occurrence of one separator character
(`n` separators yield `n+1` parts, empties kept). -/
def splitOnChar (sep : Char) : Str → List Str
  | [] => [[]]
  | c :: t =>
    if c = sep then [] :: splitOnChar sep t
    else match splitOnChar sep t with
      | [] => [[c]]
      | p :: ps => (c :: p) :: ps

/-- Model of `str.splitlines()` for `\n`-separated text: like splitting on `\n` but a
trailing newline does not produce a trailing empty part, and the empty string
has no lines. -/
def splitlinesStr (s : Str) : List Str :=
  if s.isEmpty then []
  else
    let parts := splitOnChar '\n' s
    match parts.getLast? with
    | some [] => parts.dropLast
    | _ => parts

/-- Model of `line.split(sep, 1)` when `sep in line`: split at the first occurrence. -/
def splitFirst (sep : Char) : Str → Option (Str × Str)
  | [] => none
  | c :: t =>
    if c = sep then some ([], t)
    else (splitFirst sep t).map (fun p => (c :: p.1, p.2))

/-- Collapse runs of whitespace to a single space (`re.sub(r"\s+", " ", ·)`).
`prevSpace` records whether the previous character belonged to a run. -/
def collapseWsGo (prevSpace : Bool) : Str → Str
  | [] => []
  | c :: t =>
    if isSpaceChar c then
      if prevSpace then collapseWsGo true t else ' ' :: collapseWsGo true t
    else c :: collapseWsGo false t

/-- Model of `bot.utils.passport._normalize_text`:
`re.sub(r"\s+", " ", text).strip()`. -/
def normalize_text (s : Str) : Str := stripStr (collapseWsGo false s)

/-- Stable deduplication, `list(dict.fromkeys(xs))`. -/
def dedupeGo (seen : List Str) : List Str → List Str
  | [] => []
  | x :: t => if seen.contains x then dedupeGo seen t else x :: dedupeGo (x :: seen) t

def dedupeKeepFirst (xs : List Str) : List Str := dedupeGo [] xs

/-- First `some` in a list of options (models a chain of
`if found: return` attempts). -/
def firstSome {α : Type} : List (Option α) → Option α
  | [] => none
  | some a :: _ => some a
  | none :: t => firstSome t

/-- Python truthiness of an optional string (`if s:`): present and non-empty. -/
def optTruthy : Option Str → Bool
  | none => false
  | some s => !s.isEmpty

/-! ## Date tokens and date parsing (`_parse_date_string`) -/

/-- One character of the `[.\s]` class in the date regex. -/
def isDateSep (c : Char) : Bool := c = '.' || isSpaceChar c

/-- Match `\d{2}[.\s]\d{2}[.\s]\d{4}` at the head of the string; returns the
matched token and the remainder.  The pattern is fixed-length, so matching is
deterministic. -/
def matchDateTok : Str → Option (Str × Str)
  | d1 :: d2 :: s1 :: d3 :: d4 :: s2 :: y1 :: y2 :: y3 :: y4 :: rest =>
    if isDigitChar d1 && isDigitChar d2 && isDateSep s1 && isDigitChar d3 &&
        isDigitChar d4 && isDateSep s2 && isDigitChar y1 && isDigitChar y2 &&
        isDigitChar y3 && isDigitChar y4 then
      some ([d1, d2, s1, d3, d4, s2, y1, y2, y3, y4], rest)
    else none
  | _ => none

/-- Model of `re.search` for the date token: first match scanning left to right. -/
def searchDateTok : Str → Option Str
  | [] => none
  | s@(_ :: t) =>
    match matchDateTok s with
    | some (m, _) => some m
    | none => searchDateTok t

/-- Model of `re.findall` for the date token: non-overlapping matches left to right.
`fuel` bounds the scan; `s.length` always suffices since every recursive call
consumes at least one character. -/
def findAllDates : Nat → Str → List Str
  | 0, _ => []
  | _, [] => []
  | fuel + 1, s@(_ :: t) =>
    match matchDateTok s with
    | some (m, rest) => m :: findAllDates fuel rest
    | none => findAllDates fuel t

/-- Model of `re.findall(r"\d+", value)`: maximal runs of digits. -/
def digitRunsGo (cur : Str) : Str → List Str
  | [] => if cur.isEmpty then [] else [cur.reverse]
  | c :: t =>
    if isDigitChar c then digitRunsGo (c :: cur) t
    else if cur.isEmpty then digitRunsGo [] t
    else cur.reverse :: digitRunsGo [] t

def digitRuns (s : Str) : List Str := digitRunsGo [] s

/-- Model of `int(·)` on a digit string. -/
def strToNat (s : Str) : Nat := s.foldl (fun acc c => acc * 10 + (c.toNat - 48)) 0

/-- Modelled behaviour of `dateutil.parser.parse(f"{a:02d}.{b:02d}.{y:04d}",
dayfirst=True).date()`: with `dayfirst`, `a` is the day and `b` the month,
except that when `a ≤ 12 < b` dateutil swaps them (a value above 12 must be
the day); the result must be a valid `datetime.date`, else `ValueError`
(here `none`). -/
def dateutilParseDMY (a b y : Nat) : Option Date :=
  let dm : Nat × Nat := if a ≤ 12 && 12 < b then (b, a) else (a, b)
  if 1 ≤ y && y ≤ 9999 && 1 ≤ dm.2 && dm.2 ≤ 12 && 1 ≤ dm.1 &&
      dm.1 ≤ daysInMonth y dm.2 then
    some ⟨y, dm.2, dm.1⟩
  else none

/-- Model of `bot.utils.passport._parse_date_string`: extract the three digit runs,
zero-pad, and parse day-first; `none` on calendar-validation failure. -/
def parse_date_string (value : Str) : Option Date :=
  match digitRuns value with
  | [a, b, y] => dateutilParseDMY (strToNat a) (strToNat b) (strToNat y)
  | _ => none

/-! ## Case-insensitive literal matching and the issued-date chain -/

/-- Match a literal pattern (given lower-cased) case-insensitively at the head
of `s` (re.IGNORECASE); returns the remainder. -/
def matchLitCI (pat : Str) (s : Str) : Option Str :=
  if lowerStr (s.take pat.length) = pat then some (s.drop pat.length) else none

def kwDataVydachi : Str := "дата выдачи".data
def kwVydan : Str := "выдан".data
def kwVydano : Str := "выдано".data
def kwVydana : Str := "выдана".data

/-- The keyword tuple of `_extract_issued_date`. -/
def issuedDateKeywords : List Str := [kwDataVydachi, kwVydan, kwVydano, kwVydana]

/-- Match `keyword[^0-9]{0,40}(date)` at the head of `s`.  The gap `[^0-9]*`
is forced to the maximal run of non-digits (the date starts with a digit), so
the match is deterministic; it fails if that run exceeds 40 characters. -/
def kwThenDateAt (kw : Str) (s : Str) : Option Str :=
  match matchLitCI kw s with
  | none => none
  | some r =>
    let gap := r.takeWhile (fun c => !isDigitChar c)
    if gap.length ≤ 40 then
      match matchDateTok (r.drop gap.length) with
      | some (m, _) => some m
      | none => none
    else none

def searchKwThenDate (kw : Str) : Str → Option Str
  | [] => none
  | s@(_ :: t) =>
    match kwThenDateAt kw s with
    | some m => some m
    | none => searchKwThenDate kw t

/-- Match `(date)[^0-9]{0,40}keyword` at the head of `s`: the date token, then
some gap of at most 40 non-digits after which the keyword matches. -/
def dateThenKwAt (kw : Str) (s : Str) : Option Str :=
  match matchDateTok s with
  | some (m, rest) =>
    let maxGap := min 40 (rest.takeWhile (fun c => !isDigitChar c)).length
    if (List.range (maxGap + 1)).any (fun k => (matchLitCI kw (rest.drop k)).isSome) then
      some m
    else none
  | none => none

def searchDateThenKw (kw : Str) : Str → Option Str
  | [] => none
  | s@(_ :: t) =>
    match dateThenKwAt kw s with
    | some m => some m
    | none => searchDateThenKw kw t

/-- Step 1 of `_extract_issued_date`: for each keyword, search
`keyword … date`; return the first parseable hit. -/
def issuedDateStep1 (text : Str) : Option Date :=
  firstSome (issuedDateKeywords.map (fun kw =>
    match searchKwThenDate kw text with
    | some m => parse_date_string m
    | none => none))

/-- Step 2: for each keyword, search `date … keyword`. -/
def issuedDateStep2 (text : Str) : Option Date :=
  firstSome (issuedDateKeywords.map (fun kw =>
    match searchDateThenKw kw text with
    | some m => parse_date_string m
    | none => none))

/-- Step 3 worker: scan lines; on a keyword line search the line, its
successor and its predecessor (joined by spaces) for a date token. -/
def issuedDateStep3Go (prev : Option Str) : List Str → Option Date
  | [] => none
  | line :: rest =>
    let hit :=
      if issuedDateKeywords.any (fun kw => containsSub (lowerStr line) kw) then
        let nb := [line] ++ (match rest with | n :: _ => [n] | [] => []) ++
          (match prev with | some p => [p] | none => [])
        match searchDateTok (joinSep [' '] nb) with
        | some m => parse_date_string m
        | none => none
      else none
    match hit with
    | some d => some d
    | none => issuedDateStep3Go (some line) rest

def issuedDateStep3 (text : Str) : Option Date :=
  issuedDateStep3Go none (splitlinesStr text)

/-- Step 4 (disambiguation fallback): all parseable date tokens in the text;
succeed only when exactly one distinct date remains. -/
def issuedDateStep4 (text : Str) : Option Date :=
  let cands := (findAllDates text.length text).filterMap parse_date_string
  match cands with
  | [] => none
  | d :: ds => if ds.all (fun x => decide (x = d)) then some d else none

/-- Model of `bot.utils.passport._extract_issued_date`. -/
def extract_issued_date (text : Str) : Option Date :=
  match issuedDateStep1 text with
  | some d => some d
  | none =>
    match issuedDateStep2 text with
    | some d => some d
    | none =>
      match issuedDateStep3 text with
      | some d => some d
      | none => issuedDateStep4 text

/-! ## Full-name extraction -/

/-- Match `[А-ЯЁ][а-яё]+` at the head: one upper Cyrillic letter followed by a
maximal non-empty run of lower Cyrillic letters; returns (word, rest). -/
def matchCapWord : Str → Option (Str × Str)
  | [] => none
  | c :: t =>
    if isUpperCyr c then
      let low := t.takeWhile isLowerCyr
      if low.isEmpty then none else some (c :: low, t.drop low.length)
    else none

/-- Model of `bot.utils.passport._is_name_word`:
`re.fullmatch(r"[А-ЯЁ][а-яё]+(?:-[А-ЯЁ][а-яё]+)?", word)`. -/
def is_name_word (w : Str) : Bool :=
  match matchCapWord w with
  | some (_, []) => true
  | some (_, '-' :: r2) =>
    match matchCapWord r2 with
    | some (_, []) => true
    | _ => false
  | _ => false

def stopWordsTokens : List Str :=
  ["россий".data, "федерац".data, "паспорт".data, "мвд".data]

/-- Model of `bot.utils.passport._split_name_tokens`: whitespace tokens that look like
name words and contain no boilerplate substring. -/
def split_name_tokens (value : Str) : List Str :=
  (splitWs value).filter (fun w =>
    is_name_word w && !(stopWordsTokens.any (fun stop => containsSub (lowerStr w) stop)))

/-- Model of `bot.utils.passport._normalize_name_word`. -/
def normalize_name_word (w : Str) : Str :=
  let cleaned := stripStr w
  if cleaned.length ≤ 2 then upperStr cleaned else capitalizeStr cleaned

/-- Model of `bot.utils.passport._extract_after_keyword` inner loop: the first of the
next (up to) two lines that repeats no keyword and has no digit, stripped. -/
def firstGoodTail (keywords : List Str) (tails : List Str) : Option Str :=
  match tails.find? (fun tail =>
      !(keywords.any (fun kw => containsSub (lowerStr tail) kw)) &&
      !(containsDigit tail)) with
  | some t => some (stripStr t)
  | none => none

/-- Model of `bot.utils.passport._extract_after_keyword`. -/
def extract_after_keyword (keywords : List Str) : List Str → Option Str
  | [] => none
  | line :: rest =>
    if keywords.any (fun kw => containsSub (lowerStr line) kw) then
      match firstGoodTail keywords (rest.take 2) with
      | some t => some t
      | none => extract_after_keyword keywords rest
    else extract_after_keyword keywords rest

/-- Match the pattern-scan regex
`[А-ЯЁ][а-яё]+ [А-ЯЁ][а-яё]+ [А-ЯЁ][а-яё]+` at the head of the string. -/
def matchNameTriple (s : Str) : Option (Str × Str) :=
  match matchCapWord s with
  | none => none
  | some (w1, r1) =>
    match r1 with
    | ' ' :: r2 =>
      match matchCapWord r2 with
      | none => none
      | some (w2, r3) =>
        match r3 with
        | ' ' :: r4 =>
          match matchCapWord r4 with
          | none => none
          | some (w3, r5) => some (w1 ++ [' '] ++ w2 ++ [' '] ++ w3, r5)
        | _ => none
    | _ => none

/-- Model of `re.findall` for the name-triple pattern (fuelled left-to-right scan). -/
def findAllNameTriples : Nat → Str → List Str
  | 0, _ => []
  | _, [] => []
  | fuel + 1, s@(_ :: t) =>
    match matchNameTriple s with
    | some (m, rest) => m :: findAllNameTriples fuel rest
    | none => findAllNameTriples fuel t

def stopWordsCandidate : List Str := ["российск".data, "федерац".data, "паспорт".data]

/-- The `for candidate in matches` loop of `_extract_full_name`'s pattern
scan: skip boilerplate candidates, keep the first one whose name-word tokens
number exactly three. -/
def nameCandidateScan : List Str → Option Str
  | [] => none
  | cand :: rest =>
    if stopWordsCandidate.any (fun stop => containsSub (lowerStr cand) stop) then
      nameCandidateScan rest
    else
      let words := (splitWs cand).filterMap (fun w =>
        if is_name_word w then some (normalize_name_word w) else none)
      if words.length = 3 then some (joinSep [' '] words) else nameCandidateScan rest

/-- Model of `bot.utils.passport._collect_name_sequence` loop (state: best, current). -/
def cnsGo (best current : List Str) : List Str → List Str
  | [] => best
  | line :: rest =>
    let stripped := stripStr line
    if stripped.isEmpty || containsDigit stripped then cnsGo best [] rest
    else
      let tokens := split_name_tokens stripped
      if tokens.isEmpty then cnsGo best [] rest
      else if 3 ≤ tokens.length then tokens.take 3
      else
        let current1 := if tokens.length = 2 then tokens else current ++ tokens.take 1
        let current2 :=
          if 3 < current1.length then current1.drop (current1.length - 3) else current1
        let best1 := if best.length < current2.length then current2 else best
        if best1.length = 3 then best1 else cnsGo best1 current2 rest

def collect_name_sequence (lines : List Str) : List Str := cnsGo [] [] lines

def otchestvoStr : Str := "отчество".data

/-- The contribution of a keyword-extracted value to `name_parts` in
`_extract_full_name` (the `if last:` and `if middle:` blocks): the first
name-word token, normalized. -/
def partsFromOpt (o : Option Str) : List Str :=
  match o with
  | some l =>
    if l.isEmpty then []
    else
      match split_name_tokens l with
      | t :: _ => [normalize_name_word t]
      | [] => []
  | none => []

/-- The contribution of the first-name value to `name_parts` (the `if first:`
block): the first token, and — when no patronymic line matched — also the
second token of the same value. -/
def partsFromFirst (middle : Option Str) (o : Option Str) : List Str :=
  match o with
  | some f =>
    if f.isEmpty then []
    else
      match split_name_tokens f with
      | [] => []
      | [t] => [normalize_name_word t]
      | t :: t2 :: _ =>
        [normalize_name_word t] ++
          (if optTruthy middle then [] else [normalize_name_word t2])
  | none => []

/-- Model of `bot.utils.passport._extract_full_name` (the `text` parameter of the
source function is unused there, so it is omitted here).  Returns the name and
the list of missing name parts. -/
def extract_full_name (lines : List Str) : Option Str × List Str :=
  let last := extract_after_keyword ["фамил".data] lines
  let first := extract_after_keyword ["имя".data] lines
  let middle := extract_after_keyword ["отч".data] lines
  let name_parts := partsFromOpt last ++ partsFromFirst middle first ++ partsFromOpt middle
  if 2 ≤ name_parts.length then
    if 3 ≤ name_parts.length then (some (joinSep [' '] (name_parts.take 3)), [])
    else (some (joinSep [' '] (name_parts.take 2)), [otchestvoStr])
  else
    let normalized_text :=
      joinSep [' '] ((lines.map stripStr).filter (fun l => !l.isEmpty))
    match nameCandidateScan (findAllNameTriples normalized_text.length normalized_text) with
    | some name => (some name, [])
    | none =>
      let sequential := collect_name_sequence lines
      if sequential.length = 3 then
        (some (joinSep [' '] (sequential.map normalize_name_word)), [])
      else if sequential.length = 2 then
        (some (joinSep [' '] (sequential.map normalize_name_word)), [otchestvoStr])
      else (none, [])

/-! ## Series/number, issued-by, division code -/

/-- Match `\d{2}\s?\d{2}` at the head of the string; returns the matched text
and the remainder.  The greedy `\s?` is forced (a space is never a digit), so
matching is deterministic. -/
def matchFourDigits : Str → Option (Str × Str)
  | c1 :: c2 :: rest =>
    if isDigitChar c1 && isDigitChar c2 then
      match rest with
      | sp :: d3 :: d4 :: r2 =>
        if isSpaceChar sp && isDigitChar d3 && isDigitChar d4 then
          some ([c1, c2, sp, d3, d4], r2)
        else
          if isDigitChar sp && isDigitChar d3 then some ([c1, c2, sp, d3], d4 :: r2)
          else none
      | [d3, d4] =>
        if isDigitChar d3 && isDigitChar d4 then some ([c1, c2, d3, d4], []) else none
      | _ => none
    else none
  | _ => none

/-- Match `(\d{2}\s?\d{2})\D*(\d{6})` at the head of the string; returns the
two groups.  The greedy `\D*` gap is forced to the maximal run of non-digits
(the second group starts with a digit). -/
def matchSerNum (s : Str) : Option (Str × Str) :=
  match matchFourDigits s with
  | some (g1, r2) =>
    let afterGap := r2.dropWhile (fun c => !isDigitChar c)
    let six := afterGap.take 6
    if six.length = 6 && six.all isDigitChar then some (g1, six) else none
  | none => none

def searchSerNum : Str → Option (Str × Str)
  | [] => none
  | s@(_ :: t) =>
    match matchSerNum s with
    | some r => some r
    | none => searchSerNum t

/-- Model of `bot.utils.passport._extract_series_number`. -/
def extract_series_number (text : Str) : Option Str × Option Str :=
  match searchSerNum (text.map (fun c => if c = '\n' then ' ' else c)) with
  | none => (none, none)
  | some (g1, g2) =>
    let series := g1.filter isDigitChar
    let number := g2.filter isDigitChar
    if series.length = 4 && number.length = 6 then (some series, some number)
    else (none, none)

def issuedByKeywords : List Str :=
  ["выдан".data, "овд".data, "уфмс".data, "мвд".data, "отдел".data]

def newFieldKeywords : List Str :=
  ["серия".data, "номер".data, "дата".data, "код подразделения".data, "фамил".data,
   "имя".data, "отч".data, "пол".data, "место рождения".data, "выдан".data, "фио".data]

def isDashChar (c : Char) : Bool := c = '-' || c.toNat = 0x2013 || c.toNat = 0x2014

/-- Model of `re.fullmatch(r"\d{3}\s*[-–—]\s*\d{3}", s)`: greedy `\s*` runs are forced
(a dash and a digit are not whitespace). -/
def fullmatchDivision (s : Str) : Bool :=
  match s with
  | a :: b :: c :: rest =>
    if isDigitChar a && isDigitChar b && isDigitChar c then
      match rest.dropWhile isSpaceChar with
      | dash :: r2 =>
        if isDashChar dash then
          match r2.dropWhile isSpaceChar with
          | [x, y, z] => isDigitChar x && isDigitChar y && isDigitChar z
          | _ => false
        else false
      | [] => false
    else false
  | _ => false

/-- Model of `re.match(r"^паспорт(?:\b|[\s:,-])", lowered)`: the literal prefix
followed by a word boundary (the character-class alternative is subsumed by
the boundary, every listed character being a non-word character). -/
def passportPrefixMatch (lowered : Str) : Bool :=
  match matchLitCI ("паспорт".data) lowered with
  | some [] => true
  | some (c :: _) => !isWordChar c
  | none => false

/-- Model of `bot.utils.passport._looks_like_new_field`. -/
def looks_like_new_field (line : Str) : Bool :=
  let stripped := stripStr line
  let lowered := lowerStr stripped
  if newFieldKeywords.any (fun kw => containsSub lowered kw) then true
  else if passportPrefixMatch lowered then true
  else if (searchDateTok stripped).isSome then true
  else if 10 ≤ (stripped.filter isDigitChar).length then true
  else fullmatchDivision stripped

/-- Match `(?i)кем\s+выдан[\s:]*` at the head; returns the remainder after
the match (the matched text is deleted by `re.sub`). -/
def matchKemVydan (s : Str) : Option Str :=
  match matchLitCI ("кем".data) s with
  | none => none
  | some r =>
    let ws := r.takeWhile isSpaceChar
    if ws.isEmpty then none
    else
      match matchLitCI kwVydan (r.drop ws.length) with
      | none => none
      | some r3 => some (r3.dropWhile (fun c => isSpaceChar c || c = ':'))

/-- Model of `re.sub(r"(?i)кем\s+выдан[\s:]*", "", s)`: delete every non-overlapping
match, scanning left to right (fuelled; `s.length` suffices). -/
def subKemVydan : Nat → Str → Str
  | 0, s => s
  | _, [] => []
  | fuel + 1, s@(c :: t) =>
    match matchKemVydan s with
    | some rest => subKemVydan fuel rest
    | none => c :: subKemVydan fuel t

/-- Model of `bot.utils.passport._normalize_title_phrase` word predicate
`word.isupper()`: at least one cased character, no lower-case one. -/
def pyIsUpper (w : Str) : Bool :=
  w.any (fun c => isUpperCyr c || isAsciiUpper c || isLowerCyr c || isAsciiLower c) &&
  w.all (fun c => !(isLowerCyr c || isAsciiLower c))

/-- Model of `bot.utils.passport._normalize_title_phrase`. -/
def normalize_title_phrase (text : Str) : Str :=
  joinSep [' '] ((splitWs text).map (fun w =>
    if pyIsUpper w && w.length ≤ 3 then upperStr w
    else if w.length ≤ 2 then upperStr w
    else capitalizeStr w))

/-- Model of `bot.utils.passport._extract_issued_by`. -/
def extract_issued_by : List Str → Option Str
  | [] => none
  | line :: rest =>
    if issuedByKeywords.any (fun kw => containsSub (lowerStr line) kw) then
      let collected := line :: (rest.take 3).takeWhile (fun t => !looks_like_new_field t)
      let joined := joinSep [' '] collected
      let cleaned := stripStr (subKemVydan joined.length joined)
      if cleaned.isEmpty then extract_issued_by rest
      else some (normalize_title_phrase cleaned)
    else extract_issued_by rest

/-- Match `\d{3}\s*[-–—]\s*\d{3}\b` at the head (the trailing boundary checks
the character following the match); returns the matched text. -/
def matchDivisionAt (s : Str) : Option Str :=
  match s with
  | a :: b :: c :: rest =>
    if isDigitChar a && isDigitChar b && isDigitChar c then
      let ws1 := rest.takeWhile isSpaceChar
      match rest.drop ws1.length with
      | dash :: r2 =>
        if isDashChar dash then
          let ws2 := r2.takeWhile isSpaceChar
          match r2.drop ws2.length with
          | x :: y :: z :: r3 =>
            if isDigitChar x && isDigitChar y && isDigitChar z &&
                (match r3 with | [] => true | w :: _ => !isWordChar w) then
              some ([a, b, c] ++ ws1 ++ [dash] ++ ws2 ++ [x, y, z])
            else none
          | _ => none
        else none
      | [] => none
    else none
  | _ => none

/-- Model of `re.search(r"\b\d{3}\s*[-–—]\s*\d{3}\b", ·)`: scan positions left to
right, requiring a word boundary before the match (`prev` is the previous
character). -/
def searchDivision (prev : Option Char) : Str → Option Str
  | [] => none
  | s@(c :: t) =>
    let boundaryOk := match prev with | none => true | some p => !isWordChar p
    match (if boundaryOk then matchDivisionAt s else none) with
    | some m => some m
    | none => searchDivision (some c) t

/-- Model of `bot.utils.passport._extract_division_code`. -/
def extract_division_code (text : Str) : Option Str :=
  match searchDivision none (text.map (fun c => if c = '\n' then ' ' else c)) with
  | none => none
  | some m =>
    let digits := m.filter isDigitChar
    if digits.length = 6 then some (digits.take 3 ++ ['-'] ++ digits.drop 3)
    else none

/-! ## The passport record assembler -/

def lblFio : Str := "ФИО".data
def lblSeria : Str := "серия".data
def lblNomer : Str := "номер".data
def lblKemVydan : Str := "кем выдан".data
def lblDataVydachi : Str := "дата выдачи".data
def lblKod : Str := "код подразделения".data

def requiredFields : List Str := [lblFio, lblSeria, lblNomer, lblKemVydan, lblDataVydachi]

/-- The single warning text built when the name is incomplete. -/
def nameWarning (missing_parts : List Str) : Str :=
  "ФИО распознано не полностью: отсутствует ".data ++ joinSep (", ".data) missing_parts

/-- The `result` dictionary of `_build_passport_from_lines`: the six `values`
entries (an entry is set only when the extractor's result is truthy) plus the
three diagnostic lists. -/
structure BuildResult where
  full_name : Option Str
  series : Option Str
  number : Option Str
  issued_by : Option Str
  issued_date : Option Date
  division_code : Option Str
  recognized_fields : List Str
  missing_fields : List Str
  warnings : List Str
deriving DecidableEq, Repr

/-- Model of `bot.utils.passport._build_passport_from_lines`. -/
def build_passport_from_lines (lines : List Str) : BuildResult :=
  let text := joinSep ['\n'] lines
  let fn := extract_full_name lines
  let sn := extract_series_number text
  let issued_by := extract_issued_by lines
  let issued_date := extract_issued_date text
  let division_code := extract_division_code text
  let bFn := optTruthy fn.1
  let bSer := optTruthy sn.1
  let bNum := optTruthy sn.2
  let bBy := optTruthy issued_by
  let bDate := issued_date.isSome
  let bKod := optTruthy division_code
  let recognized :=
    (if bFn then [lblFio] else []) ++ (if bSer then [lblSeria] else []) ++
    (if bNum then [lblNomer] else []) ++ (if bBy then [lblKemVydan] else []) ++
    (if bDate then [lblDataVydachi] else []) ++ (if bKod then [lblKod] else [])
  let missing0 :=
    (if bFn then [] else [lblFio]) ++ (if bSer then [] else [lblSeria]) ++
    (if bNum then [] else [lblNomer]) ++ (if bBy then [] else [lblKemVydan]) ++
    (if bDate then [] else [lblDataVydachi])
  { full_name := if bFn then fn.1 else none
    series := if bSer then sn.1 else none
    number := if bNum then sn.2 else none
    issued_by := if bBy then issued_by else none
    issued_date := issued_date
    division_code := if bKod then division_code else none
    recognized_fields := dedupeKeepFirst recognized
    missing_fields := dedupeKeepFirst (missing0.filter (fun f => requiredFields.contains f))
    warnings := if bFn && !fn.2.isEmpty then [nameWarning fn.2] else [] }

inductive RecognitionError where
  | noTextFound
  | noFieldsRecognized
deriving DecidableEq, Repr

/-- Model of `bot.models.PassportData` (photo path omitted: never set here). -/
structure PassportRecord where
  full_name : Str
  series : Str
  number : Str
  issued_by : Str
  issued_date : Date
deriving DecidableEq, Repr

/-- Model of `bot.utils.passport.recognize_passport_image` after the OCR call: the raw
OCR lines are normalized and filtered, an empty list raises a recognition
error, a record is built when all five mandatory values are present, and a
second recognition error is raised when no field at all was recognized. -/
def recognize_passport_lines (raw_lines : List Str) :
    Except RecognitionError (Option PassportRecord × BuildResult) :=
  let lines := (raw_lines.map normalize_text).filter (fun l => !l.isEmpty)
  if lines.isEmpty then .error .noTextFound
  else
    let result := build_passport_from_lines lines
    let passport : Option PassportRecord :=
      match result.full_name, result.series, result.number,
          result.issued_by, result.issued_date with
      | some a, some b, some c, some d, some e => some ⟨a, b, c, d, e⟩
      | _, _, _, _, _ => none
    if result.recognized_fields.isEmpty then .error .noFieldsRecognized
    else .ok (passport, result)

/-! ## The manual-entry parser -/

def aliasesFullName : List Str := ["фио".data, "ф.и.о".data, "фамилия".data]
def aliasesSeries : List Str := ["серия".data]
def aliasesNumber : List Str := ["номер".data]
def aliasesIssuedBy : List Str := ["кем выдан".data, "кем выдано".data, "орган".data]
def aliasesIssuedDate : List Str := ["дата выдачи".data, "выдан".data, "выдана".data]

/-- Python dict assignment `d[k] = v`: overwrite in place, keep the key's
original insertion position, else append. -/
def dictInsert (k v : Str) : List (Str × Str) → List (Str × Str)
  | [] => [(k, v)]
  | (k', v') :: t => if k' = k then (k, v) :: t else (k', v') :: dictInsert k v t

/-- The `data` dict of `parse_passport_text`: each line split at the first
`:` (or the first `-` when it has no colon, else skipped), keys stripped and
lower-cased, values stripped. -/
def buildDataDict (lines : List Str) : List (Str × Str) :=
  lines.foldl (fun d line =>
    match splitFirst ':' line with
    | some (k, v) => dictInsert (lowerStr (stripStr k)) (stripStr v) d
    | none =>
      match splitFirst '-' line with
      | some (k, v) => dictInsert (lowerStr (stripStr k)) (stripStr v) d
      | none => d) []

/-- The alias-mapping loop: the first alias (in table order) for which some
key of the dict (in insertion order) contains the alias as a substring. -/
def lookupAlias (data : List (Str × Str)) (aliases : List Str) : Option Str :=
  firstSome (aliases.map (fun al =>
    (data.find? (fun kv => containsSub kv.1 al)).map (fun kv => kv.2)))

inductive ParseError where
  | emptyText
  | missingFields (missing : List Str)
  | unparseableDate
deriving DecidableEq, Repr

/-- The five lines listed by `parse_passport_text` for a manual input: the
stripped, non-empty lines of the stripped text. -/
def manualLines (cleaned : Str) : List Str :=
  ((splitlinesStr cleaned).map stripStr).filter (fun l => !l.isEmpty)

/-- Model of `bot.utils.passport.parse_passport_text`.  The dateutil call on the free
text of the issued-date value is abstracted by `dparse` (the repository uses
`dateutil.parser.parse(·, dayfirst=True).date()`, whose `ValueError` on an
unparseable value is the `unparseableDate` outcome). -/
def parse_passport_text (dparse : Str → Option Date) (raw : Str) :
    Except ParseError PassportRecord :=
  let cleaned := stripStr raw
  if cleaned.isEmpty then .error .emptyText
  else
    let data := buildDataDict (manualLines cleaned)
    let mFull := lookupAlias data aliasesFullName
    let mSeries := lookupAlias data aliasesSeries
    let mNumber := lookupAlias data aliasesNumber
    let mBy := lookupAlias data aliasesIssuedBy
    let mDate := lookupAlias data aliasesIssuedDate
    let missing :=
      (if mFull.isSome then [] else ["full_name".data]) ++
      (if mSeries.isSome then [] else ["series".data]) ++
      (if mNumber.isSome then [] else ["number".data]) ++
      (if mBy.isSome then [] else ["issued_by".data]) ++
      (if mDate.isSome then [] else ["issued_date".data])
    match mFull, mSeries, mNumber, mBy, mDate with
    | some vf, some vs, some vn, some vb, some vd =>
      match dparse vd with
      | some dt => .ok ⟨vf, vs.filter isDigitChar, vn.filter isDigitChar, vb, dt⟩
      | none => .error .unparseableDate
    | _, _, _, _, _ => .error (.missingFields missing)

/-! ## `bot.services.extract_passport_data._best_series_number` -/

def hintSeries (ln : Str) : Bool :=
  containsSub (lowerStr ln) "серия".data || containsSub (lowerStr ln) "сер.".data

def hintNumber (ln : Str) : Bool :=
  containsSub (lowerStr ln) "номер".data || containsSub (lowerStr ln) "№".data

/-- Model of `\d{6}\b` at the head: six digits followed by a word boundary. -/
def matchSixB (r3 : Str) : Option Str :=
  let six := r3.take 6
  if six.length = 6 && six.all isDigitChar then
    match r3.drop 6 with
    | [] => some six
    | w :: _ => if isWordChar w then none else some six
  else none

/-- The remainders after the optional `(?:№|N|№\.|N\.)?` marker, in the order
the regex engine tries the alternatives (then the empty option). -/
def markerRemainders (r1 : Str) : List Str :=
  (if ("№".data).isPrefixOf r1 then [r1.drop 1] else []) ++
  (if ("N".data).isPrefixOf r1 then [r1.drop 1] else []) ++
  (if ("№.".data).isPrefixOf r1 then [r1.drop 2] else []) ++
  (if ("N.".data).isPrefixOf r1 then [r1.drop 2] else []) ++
  [r1]

/-- Match `\s?(?:№|N|№\.|N\.)?\s?(\d{6})\b` at the head, trying the optional
parts greedily in the regex engine's order; returns group 2. -/
def serNumTail (r : Str) : Option Str :=
  let aOpts : List Str :=
    match r with
    | c :: t => if isSpaceChar c then [t, r] else [r]
    | [] => [r]
  firstSome (aOpts.map (fun r1 =>
    firstSome ((markerRemainders r1).map (fun r2 =>
      let bOpts : List Str :=
        match r2 with
        | c :: t => if isSpaceChar c then [t, r2] else [r2]
        | [] => [r2]
      firstSome (bOpts.map matchSixB)))))

/-- Match `SER_NUM_RE` (sans its leading `\b`, which the search handles) at
the head of the string; returns groups 1 and 2. -/
def matchSerNumREAt (s : Str) : Option (Str × Str) :=
  match matchFourDigits s with
  | none => none
  | some (g1, r) =>
    match serNumTail r with
    | some g2 => some (g1, g2)
    | none => none

/-- Model of `SER_NUM_RE.search`: leftmost match with a word boundary before it. -/
def searchSerNumRE (prev : Option Char) : Str → Option (Str × Str)
  | [] => none
  | s@(c :: t) =>
    let boundaryOk := match prev with | none => true | some p => !isWordChar p
    match (if boundaryOk then matchSerNumREAt s else none) with
    | some g => some g
    | none => searchSerNumRE (some c) t

/-- The `out` dict of `_best_series_number` (empty strings = not found). -/
structure SerNumOut where
  series : Str
  number : Str
  series_raw : Str
  number_raw : Str
deriving DecidableEq, Repr

/-- Each line with its predecessor and successor, for the
`lines[max(0, i - 1) : i + 2]` hint window. -/
def neighborTriples (lines : List Str) : List (Option Str × Str × Option Str) :=
  List.zip (none :: lines.map some) (List.zip lines ((lines.map some).drop 1 ++ [none]))

def chunkOf (prev : Option Str) (ln : Str) (next : Option Str) : Str :=
  joinSep [' '] ((match prev with | some p => [p] | none => []) ++ [ln] ++
    (match next with | some n => [n] | none => []))

/-- The loop of `_best_series_number` over the lines. -/
def bsnList : List (Option Str × Str × Option Str) → SerNumOut
  | [] => ⟨[], [], [], []⟩
  | (prev, ln, next) :: rest =>
    match searchSerNumRE none ln with
    | some (g1, g2) => ⟨g1.filter (fun c => c != ' '), g2, ln, ln⟩
    | none =>
      if hintSeries ln || hintNumber ln then
        let chunk := chunkOf prev ln next
        match searchSerNumRE none chunk with
        | some (g1, g2) => ⟨g1.filter (fun c => c != ' '), g2, chunk, chunk⟩
        | none => bsnList rest
      else bsnList rest

/-- Model of `bot.services.extract_passport_data._best_series_number`. -/
def best_series_number (lines : List Str) : SerNumOut :=
  bsnList (neighborTriples lines)

/-- Standalone digit token of a given length (used to state claim C5):
a whitespace-delimited token consisting of exactly `n` digits. -/
def hasStandaloneDigitToken (n : Nat) (t : Str) : Bool :=
  (splitWs t).any (fun w => w.length = n && w.all isDigitChar)

/-! ## Claim C6: the issued-date disambiguation fallback -/

/-- Claim C6: for every text on which the three keyword-anchored steps of
`_extract_issued_date` fail, the result is determined by the calendar-valid
parses of the date-shaped tokens alone (invalid candidates are discarded
locally): exactly one distinct valid date yields that date, two or more
distinct valid dates yield none. -/
theorem C6_issued_date_disambiguation (text : Str)
    (h1 : issuedDateStep1 text = none) (h2 : issuedDateStep2 text = none)
    (h3 : issuedDateStep3 text = none) :
    (extract_issued_date text =
      match (findAllDates text.length text).filterMap parse_date_string with
      | [] => none
      | d :: ds => if ds.all (fun x => decide (x = d)) then some d else none) ∧
    (∀ d, d ∈ (findAllDates text.length text).filterMap parse_date_string →
      (∀ x ∈ (findAllDates text.length text).filterMap parse_date_string, x = d) →
      extract_issued_date text = some d) ∧
    (∀ d d', d ∈ (findAllDates text.length text).filterMap parse_date_string →
      d' ∈ (findAllDates text.length text).filterMap parse_date_string → d ≠ d' →
      extract_issued_date text = none) := by
  have hmain : extract_issued_date text =
      match (findAllDates text.length text).filterMap parse_date_string with
      | [] => none
      | d :: ds => if ds.all (fun x => decide (x = d)) then some d else none := by
    unfold extract_issued_date
    rw [h1, h2, h3]
    rfl
  refine ⟨hmain, ?_, ?_⟩
  · intro d hd hall
    rw [hmain]
    generalize hL : (findAllDates text.length text).filterMap parse_date_string = L
      at hd hall ⊢
    cases L with
    | nil => simp at hd
    | cons d0 ds =>
      have hd0 : d0 = d := hall d0 (List.mem_cons_self d0 ds)
      have hds : (ds.all fun x => decide (x = d0)) = true := by
        apply List.all_eq_true.mpr
        intro x hx
        have hx' : x = d := hall x (List.mem_cons_of_mem d0 hx)
        simp [hx', hd0]
      show (if (ds.all fun x => decide (x = d0)) = true then some d0 else none) = some d
      rw [if_pos hds, hd0]
  · intro d d' hd hd' hne
    rw [hmain]
    generalize hL : (findAllDates text.length text).filterMap parse_date_string = L
      at hd hd' ⊢
    cases L with
    | nil => rfl
    | cons d0 ds =>
      have hnall : (ds.all fun x => decide (x = d0)) = false := by
        by_contra hcon
        have hall : (ds.all fun x => decide (x = d0)) = true := by
          cases hv : ds.all fun x => decide (x = d0)
          · exact absurd hv hcon
          · rfl
        rw [List.all_eq_true] at hall
        have heq : ∀ x ∈ d0 :: ds, x = d0 := by
          intro x hx
          rcases List.mem_cons.mp hx with h | h
          · exact h
          · simpa using hall x h
        exact hne ((heq d hd).trans (heq d' hd').symm)
      show (if (ds.all fun x => decide (x = d0)) = true then some d0 else none) = none
      rw [if_neg (by simp [hnall])]

def c6SampleOne : Str := "абв 31.02.2003 где 05.06.2007".data

def c6SampleTwo : Str := "абв 01.02.2003 где 05.06.2007".data

theorem C6_issued_date_disambiguation_witness :
    extract_issued_date c6SampleOne = some ⟨2007, 6, 5⟩ ∧
    extract_issued_date c6SampleTwo = none := by
  constructor
  · have h := (C6_issued_date_disambiguation c6SampleOne (by decide) (by decide)
      (by decide)).1
    rw [h]
    decide
  · exact (C6_issued_date_disambiguation c6SampleTwo (by decide) (by decide)
      (by decide)).2.2 ⟨2003, 2, 1⟩ ⟨2007, 6, 5⟩ (by decide) (by decide) (by decide)

/-! ## Claim C5: no standalone series/number fallback exists -/

def c5Text : Str := "567890 данные 1234".data

/-- Claim C5 counterexample input: this text has a standalone 4-digit token
and a standalone 6-digit token and no combined-pattern match, yet both
extractors return nothing, contradicting the claimed standalone fallback. -/
theorem C5_counterexample :
    hasStandaloneDigitToken 4 c5Text = true ∧
    hasStandaloneDigitToken 6 c5Text = true ∧
    searchSerNum (c5Text.map (fun c => if c = '\n' then ' ' else c)) = none ∧
    extract_series_number c5Text = (none, none) ∧
    best_series_number [c5Text] = ⟨[], [], [], []⟩ := by
  refine ⟨by decide, by decide, by decide, by decide, by decide⟩

lemma bsnList_none (ts : List (Option Str × Str × Option Str))
    (h : ∀ t ∈ ts, searchSerNumRE none t.2.1 = none ∧
      searchSerNumRE none (chunkOf t.1 t.2.1 t.2.2) = none) :
    bsnList ts = ⟨[], [], [], []⟩ := by
  induction ts with
  | nil => rfl
  | cons t rest ih =>
    obtain ⟨prev, ln, next⟩ := t
    obtain ⟨hline, hchunk⟩ := h (prev, ln, next) (List.mem_cons_self _ _)
    simp only at hline hchunk
    have hrest := ih (fun x hx => h x (List.mem_cons_of_mem _ hx))
    unfold bsnList
    by_cases hh : (hintSeries ln || hintNumber ln) = true <;>
      simp [hline, hchunk, hrest, hh]

/-- Claim C5 amended: `_extract_series_number` and `_best_series_number` have
no standalone-token fallback.  When the combined pattern matches nowhere (in
the text, respectively in every line and every hint window), they return no
series and no number, regardless of standalone 4- and 6-digit tokens. -/
theorem C5_no_standalone_fallback (text : Str) (lines : List Str)
    (h1 : searchSerNum (text.map (fun c => if c = '\n' then ' ' else c)) = none)
    (h2 : ∀ t ∈ neighborTriples lines, searchSerNumRE none t.2.1 = none ∧
      searchSerNumRE none (chunkOf t.1 t.2.1 t.2.2) = none) :
    extract_series_number text = (none, none) ∧
    best_series_number lines = ⟨[], [], [], []⟩ := by
  constructor
  · unfold extract_series_number
    rw [h1]
  · exact bsnList_none _ h2

theorem C5_no_standalone_fallback_witness :
    extract_series_number ("567890 и 1234".data) = (none, none) ∧
    best_series_number ["серия 1234".data, "номер 567890".data] = ⟨[], [], [], []⟩ := by
  have h := C5_no_standalone_fallback ("567890 и 1234".data)
    ["серия 1234".data, "номер 567890".data] (by decide) (by decide)
  exact h

/-! ## Claims C4 and C9: the manual-entry parser -/

/-- The five alias lookups `parse_passport_text` performs, as a tuple
(full name, series, number, issued by, issued date). -/
def manualFieldLookups (raw : Str) :
    Option Str × Option Str × Option Str × Option Str × Option Str :=
  let data := buildDataDict (manualLines (stripStr raw))
  (lookupAlias data aliasesFullName, lookupAlias data aliasesSeries,
   lookupAlias data aliasesNumber, lookupAlias data aliasesIssuedBy,
   lookupAlias data aliasesIssuedDate)

/-- When all five lookups succeed, the parser's outcome is decided by the
date parse of the matched issued-date value alone. -/
lemma parse_with_lookups (dparse : Str → Option Date) (raw : Str)
    (hne : stripStr raw ≠ []) (vf vs vn vb vd : Str)
    (htup : manualFieldLookups raw = (some vf, some vs, some vn, some vb, some vd)) :
    parse_passport_text dparse raw =
      match dparse vd with
      | some dt => .ok ⟨vf, vs.filter isDigitChar, vn.filter isDigitChar, vb, dt⟩
      | none => .error .unparseableDate := by
  unfold manualFieldLookups at htup
  simp only [Prod.mk.injEq] at htup
  obtain ⟨h1, h2, h3, h4, h5⟩ := htup
  unfold parse_passport_text
  rw [if_neg (by simp [hne])]
  simp only [h1, h2, h3, h4, h5]

/-- Claim C4: the manual-entry parser fails exactly on empty input, on a
mandatory field with no matching line (after colon-or-hyphen splitting and
case-insensitive alias-table matching), or on an unparseable issued-date
value; on success the record carries the digit-filtered series and number
(no length validation) and the day-first-parsed date. -/
theorem C4_manual_parsing (dparse : Str → Option Date) (raw : Str) :
    (stripStr raw = [] → parse_passport_text dparse raw = .error .emptyText) ∧
    (stripStr raw ≠ [] → ∀ vf vs vn vb vd,
      manualFieldLookups raw = (some vf, some vs, some vn, some vb, some vd) →
      (dparse vd = none → parse_passport_text dparse raw = .error .unparseableDate) ∧
      (∀ dt, dparse vd = some dt → parse_passport_text dparse raw =
        .ok ⟨vf, vs.filter isDigitChar, vn.filter isDigitChar, vb, dt⟩)) ∧
    (stripStr raw ≠ [] →
      ((manualFieldLookups raw).1 = none ∨ (manualFieldLookups raw).2.1 = none ∨
       (manualFieldLookups raw).2.2.1 = none ∨ (manualFieldLookups raw).2.2.2.1 = none ∨
       (manualFieldLookups raw).2.2.2.2 = none) →
      ∃ missing, missing ≠ [] ∧
        parse_passport_text dparse raw = .error (.missingFields missing)) := by
  refine ⟨?_, ?_, ?_⟩
  · intro h
    unfold parse_passport_text
    rw [if_pos (by simp [h])]
  · intro hne vf vs vn vb vd htup
    constructor
    · intro hd
      rw [parse_with_lookups dparse raw hne vf vs vn vb vd htup, hd]
    · intro dt hd
      rw [parse_with_lookups dparse raw hne vf vs vn vb vd htup, hd]
  · intro hne hdisj
    unfold manualFieldLookups at hdisj
    simp only at hdisj
    unfold parse_passport_text
    rw [if_neg (by simp [hne])]
    simp only []
    rcases hF : lookupAlias (buildDataDict (manualLines (stripStr raw))) aliasesFullName with _ | vf <;>
    rcases hS : lookupAlias (buildDataDict (manualLines (stripStr raw))) aliasesSeries with _ | vs <;>
    rcases hN : lookupAlias (buildDataDict (manualLines (stripStr raw))) aliasesNumber with _ | vn <;>
    rcases hB : lookupAlias (buildDataDict (manualLines (stripStr raw))) aliasesIssuedBy with _ | vb <;>
    rcases hD : lookupAlias (buildDataDict (manualLines (stripStr raw))) aliasesIssuedDate with _ | vd <;>
      simp only [hF, hS, hN, hB, hD] at hdisj ⊢ <;>
      first
        | (exact ⟨_, by simp, rfl⟩)
        | simp_all

def c4Dparse : Str → Option Date :=
  fun s => if s = "01.02.2003".data then some ⟨2003, 2, 1⟩ else none

def c4RawOk : Str :=
  "ФИО: Иванов Иван Иванович\nСерия: 12 34\nНомер: 567890\nКем выдан: ОВД\nДата выдачи: 01.02.2003".data

theorem C4_manual_parsing_witness :
    parse_passport_text c4Dparse c4RawOk =
      .ok ⟨"Иванов Иван Иванович".data, "1234".data, "567890".data, "ОВД".data,
        ⟨2003, 2, 1⟩⟩ ∧
    parse_passport_text c4Dparse ("  ".data) = .error .emptyText ∧
    (∃ missing, missing ≠ [] ∧
      parse_passport_text c4Dparse ("ФИО: Иванов".data) = .error (.missingFields missing)) := by
  refine ⟨?_, ?_, ?_⟩
  · have h := ((C4_manual_parsing c4Dparse c4RawOk).2.1 (by decide)
      ("Иванов Иван Иванович".data) ("12 34".data) ("567890".data) ("ОВД".data)
      ("01.02.2003".data) (by decide)).2 ⟨2003, 2, 1⟩ (by decide)
    exact h.trans (by rfl)
  · exact (C4_manual_parsing c4Dparse ("  ".data)).1 (by decide)
  · exact (C4_manual_parsing c4Dparse ("ФИО: Иванов".data)).2.2 (by decide)
      (by decide)

/-- The issued-date alias loop: with no key containing «дата выдачи», the
value of the first key containing «выдан» is taken. -/
lemma lookup_issued_date_vydan (data : List (Str × Str))
    (hnone : ∀ kv ∈ data, containsSub kv.1 kwDataVydachi = false)
    (kv0 : Str × Str)
    (hfind : data.find? (fun kv => containsSub kv.1 kwVydan) = some kv0) :
    lookupAlias data aliasesIssuedDate = some kv0.2 := by
  unfold lookupAlias aliasesIssuedDate
  simp only [List.map]
  have h1 : data.find? (fun kv => containsSub kv.1 ("дата выдачи".data)) = none := by
    apply List.find?_eq_none.mpr
    intro x hx
    have hx' := hnone x hx
    unfold kwDataVydachi at hx'
    simp [hx']
  unfold kwVydan at hfind
  rw [h1, hfind]
  rfl

/-- Claim C9: label matching is substring containment, «выдан» is a substring
of the issued-by label «кем выдан», so when no key contains «дата выдачи» the
issued-date value is taken from the first dict entry (insertion order = first
line for distinct keys) whose key contains «выдан» — possibly the
issuing-authority line itself — and the whole parse fails when that value
does not parse as a date. -/
theorem C9_vydan_alias_substring (dparse : Str → Option Date) (raw : Str) :
    containsSub lblKemVydan kwVydan = true ∧
    (∀ kv0, (∀ kv ∈ buildDataDict (manualLines (stripStr raw)),
        containsSub kv.1 kwDataVydachi = false) →
      (buildDataDict (manualLines (stripStr raw))).find?
          (fun kv => containsSub kv.1 kwVydan) = some kv0 →
      lookupAlias (buildDataDict (manualLines (stripStr raw))) aliasesIssuedDate =
        some kv0.2) ∧
    (∀ kv0 vf vs vn vb, stripStr raw ≠ [] →
      (∀ kv ∈ buildDataDict (manualLines (stripStr raw)),
        containsSub kv.1 kwDataVydachi = false) →
      (buildDataDict (manualLines (stripStr raw))).find?
          (fun kv => containsSub kv.1 kwVydan) = some kv0 →
      lookupAlias (buildDataDict (manualLines (stripStr raw))) aliasesFullName = some vf →
      lookupAlias (buildDataDict (manualLines (stripStr raw))) aliasesSeries = some vs →
      lookupAlias (buildDataDict (manualLines (stripStr raw))) aliasesNumber = some vn →
      lookupAlias (buildDataDict (manualLines (stripStr raw))) aliasesIssuedBy = some vb →
      dparse kv0.2 = none →
      parse_passport_text dparse raw = .error .unparseableDate) := by
  refine ⟨by decide, ?_, ?_⟩
  · intro kv0 hnone hfind
    exact lookup_issued_date_vydan _ hnone kv0 hfind
  · intro kv0 vf vs vn vb hne hnone hfind hF hS hN hB hd
    have hD := lookup_issued_date_vydan _ hnone kv0 hfind
    have htup : manualFieldLookups raw = (some vf, some vs, some vn, some vb, some kv0.2) := by
      unfold manualFieldLookups
      simp only [Prod.mk.injEq]
      exact ⟨hF, hS, hN, hB, hD⟩
    rw [parse_with_lookups dparse raw hne vf vs vn vb kv0.2 htup, hd]

def c9Raw : Str :=
  "фио: Иванов Иван\nсерия: 12 34\nномер: 567890\nкем выдан: ОВД города".data

theorem C9_vydan_alias_substring_witness :
    parse_passport_text (fun _ => none) c9Raw = .error .unparseableDate ∧
    lookupAlias (buildDataDict (manualLines (stripStr c9Raw))) aliasesIssuedDate =
      some ("ОВД города".data) := by
  constructor
  · exact (C9_vydan_alias_substring (fun _ => none) c9Raw).2.2
      ("кем выдан".data, "ОВД города".data) ("Иванов Иван".data) ("12 34".data)
      ("567890".data) ("ОВД города".data) (by decide) (by decide) (by decide)
      (by decide) (by decide) (by decide) (by decide) rfl
  · exact (C9_vydan_alias_substring (fun _ => none) c9Raw).2.1
      ("кем выдан".data, "ОВД города".data) (by decide) (by decide)

/-! ## Claim C3: the assembler contract -/

lemma truthy_gate_isSome (o : Option Str) :
    (if optTruthy o then o else none).isSome = optTruthy o := by
  cases o with
  | none => rfl
  | some s => cases h : s.isEmpty <;> simp [optTruthy, h]

lemma missing_fields_shape (b1 b2 b3 b4 b5 : Bool) :
    dedupeKeepFirst
      (((if b1 then ([] : List Str) else [lblFio]) ++ (if b2 then [] else [lblSeria]) ++
        (if b3 then [] else [lblNomer]) ++ (if b4 then [] else [lblKemVydan]) ++
        (if b5 then [] else [lblDataVydachi])).filter (fun f => requiredFields.contains f)) =
    (if b1 then ([] : List Str) else [lblFio]) ++ (if b2 then [] else [lblSeria]) ++
      (if b3 then [] else [lblNomer]) ++ (if b4 then [] else [lblKemVydan]) ++
      (if b5 then [] else [lblDataVydachi]) := by
  cases b1 <;> cases b2 <;> cases b3 <;> cases b4 <;> cases b5 <;> decide

lemma missing_fields_sublist (b1 b2 b3 b4 b5 : Bool) :
    ((if b1 then ([] : List Str) else [lblFio]) ++ (if b2 then [] else [lblSeria]) ++
      (if b3 then [] else [lblNomer]) ++ (if b4 then [] else [lblKemVydan]) ++
      (if b5 then [] else [lblDataVydachi])).Sublist requiredFields := by
  cases b1 <;> cases b2 <;> cases b3 <;> cases b4 <;> cases b5 <;> decide

lemma missing_fields_no_kod (b1 b2 b3 b4 b5 : Bool) :
    lblKod ∉
      ((if b1 then ([] : List Str) else [lblFio]) ++ (if b2 then [] else [lblSeria]) ++
        (if b3 then [] else [lblNomer]) ++ (if b4 then [] else [lblKemVydan]) ++
        (if b5 then [] else [lblDataVydachi])) := by
  cases b1 <;> cases b2 <;> cases b3 <;> cases b4 <;> cases b5 <;> decide

lemma passport_match_isSome (a b c d : Option Str) (e : Option Date) :
    (match a, b, c, d, e with
     | some a', some b', some c', some d', some e' =>
       some (⟨a', b', c', d', e'⟩ : PassportRecord)
     | _, _, _, _, _ => none).isSome =
    (a.isSome && b.isSome && c.isSome && d.isSome && e.isSome) := by
  cases a <;> cases b <;> cases c <;> cases d <;> cases e <;> rfl

/-- Claim C3: the OCR-path assembler returns a record iff all five mandatory
fields were extracted; `missing_fields` lists exactly the absent mandatory
labels, a sublist of the stable order «ФИО, серия, номер, кем выдан, дата
выдачи» (never the optional division code); a recognition error is raised
exactly when the normalized line list is empty or no field at all (the
optional one included) was recognized. -/
theorem C3_assembler_contract (raw_lines : List Str) :
    ∀ lines r, lines = (raw_lines.map normalize_text).filter (fun l => !l.isEmpty) →
      r = build_passport_from_lines lines →
      ((∃ e, recognize_passport_lines raw_lines = .error e) ↔
        (lines = [] ∨ r.recognized_fields = [])) ∧
      (∀ p res, recognize_passport_lines raw_lines = .ok (p, res) →
        res = r ∧
        (p.isSome = (r.full_name.isSome && r.series.isSome && r.number.isSome &&
          r.issued_by.isSome && r.issued_date.isSome))) ∧
      r.missing_fields =
        (if r.full_name.isSome then [] else [lblFio]) ++
        (if r.series.isSome then [] else [lblSeria]) ++
        (if r.number.isSome then [] else [lblNomer]) ++
        (if r.issued_by.isSome then [] else [lblKemVydan]) ++
        (if r.issued_date.isSome then [] else [lblDataVydachi]) ∧
      r.missing_fields.Sublist requiredFields ∧
      lblKod ∉ r.missing_fields := by
  intro lines r hl hr
  subst hr
  have hmiss : (build_passport_from_lines lines).missing_fields =
      (if (build_passport_from_lines lines).full_name.isSome then [] else [lblFio]) ++
      (if (build_passport_from_lines lines).series.isSome then [] else [lblSeria]) ++
      (if (build_passport_from_lines lines).number.isSome then [] else [lblNomer]) ++
      (if (build_passport_from_lines lines).issued_by.isSome then [] else [lblKemVydan]) ++
      (if (build_passport_from_lines lines).issued_date.isSome then [] else
        [lblDataVydachi]) := by
    have pf1 : (build_passport_from_lines lines).full_name =
        (if optTruthy (extract_full_name lines).1 then (extract_full_name lines).1
         else none) := rfl
    have pf2 : (build_passport_from_lines lines).series =
        (if optTruthy (extract_series_number (joinSep ['\n'] lines)).1 then
          (extract_series_number (joinSep ['\n'] lines)).1 else none) := rfl
    have pf3 : (build_passport_from_lines lines).number =
        (if optTruthy (extract_series_number (joinSep ['\n'] lines)).2 then
          (extract_series_number (joinSep ['\n'] lines)).2 else none) := rfl
    have pf4 : (build_passport_from_lines lines).issued_by =
        (if optTruthy (extract_issued_by lines) then extract_issued_by lines
         else none) := rfl
    have pf5 : (build_passport_from_lines lines).issued_date =
        extract_issued_date (joinSep ['\n'] lines) := rfl
    have g1 := truthy_gate_isSome (extract_full_name lines).1
    have g2 := truthy_gate_isSome (extract_series_number (joinSep ['\n'] lines)).1
    have g3 := truthy_gate_isSome (extract_series_number (joinSep ['\n'] lines)).2
    have g4 := truthy_gate_isSome (extract_issued_by lines)
    rw [pf1, pf2, pf3, pf4, pf5, g1, g2, g3, g4]
    exact missing_fields_shape _ _ _ _ _
  refine ⟨?_, ?_, hmiss, ?_, ?_⟩
  · subst hl
    unfold recognize_passport_lines
    by_cases h1 : ((raw_lines.map normalize_text).filter (fun l => !l.isEmpty)).isEmpty = true
    · rw [if_pos h1]
      simp only [List.isEmpty_iff] at h1
      simp [h1]
    · rw [if_neg h1]
      simp only [List.isEmpty_iff] at h1
      by_cases h2 : (build_passport_from_lines
          ((raw_lines.map normalize_text).filter (fun l => !l.isEmpty))).recognized_fields
          = []
      · rw [if_pos (by simp [h2])]
        simp [h1, h2]
      · rw [if_neg (by simp [h2])]
        simp [h1, h2]
  · subst hl
    intro p res hok
    unfold recognize_passport_lines at hok
    by_cases h1 : ((raw_lines.map normalize_text).filter (fun l => !l.isEmpty)).isEmpty = true
    · rw [if_pos h1] at hok
      exact absurd hok (by simp)
    · rw [if_neg h1] at hok
      by_cases h2 : (build_passport_from_lines
          ((raw_lines.map normalize_text).filter (fun l => !l.isEmpty))).recognized_fields
          = []
      · rw [if_pos (by simp [h2])] at hok
        exact absurd hok (by simp)
      · rw [if_neg (by simp [h2])] at hok
        simp only [Except.ok.injEq, Prod.mk.injEq] at hok
        obtain ⟨hp, hres⟩ := hok
        refine ⟨hres.symm, ?_⟩
        rw [← hp]
        exact passport_match_isSome _ _ _ _ _
  · rw [hmiss]
    exact missing_fields_sublist _ _ _ _ _
  · rw [hmiss]
    exact missing_fields_no_kod _ _ _ _ _

def c3Lines : List Str := ["Фамилия".data, "Иванов".data, "Имя".data, "Иван".data]

theorem C3_assembler_contract_witness :
    (∃ e, recognize_passport_lines ([] : List Str) = .error e) ∧
    ((build_passport_from_lines
        ((c3Lines.map normalize_text).filter (fun l => !l.isEmpty))).missing_fields).Sublist
      requiredFields := by
  constructor
  · exact (C3_assembler_contract [] [] _ rfl rfl).1.mpr (Or.inl rfl)
  · exact (C3_assembler_contract c3Lines
      ((c3Lines.map normalize_text).filter (fun l => !l.isEmpty)) _ rfl rfl).2.2.2.1

/-! ## Claims C7 and C8: full-name extraction -/

/-- A well-formed name token: non-empty and containing no whitespace. -/
def strProps (w : Str) : Prop := w ≠ [] ∧ w.all (fun c => !isSpaceChar c) = true

lemma splitWsGo_mem_props : ∀ (s acc : Str), acc.all (fun c => !isSpaceChar c) = true →
    ∀ t ∈ splitWsGo acc s, strProps t := by
  intro s
  induction s with
  | nil =>
    intro acc hacc t ht
    unfold splitWsGo at ht
    by_cases hae : acc.isEmpty = true
    · rw [if_pos hae] at ht
      simp at ht
    · rw [if_neg hae] at ht
      simp only [List.mem_singleton] at ht
      subst ht
      refine ⟨by simpa using hae, ?_⟩
      rw [List.all_eq_true] at hacc ⊢
      intro c hc
      exact hacc c (List.mem_reverse.mp hc)
  | cons c s ih =>
    intro acc hacc t ht
    unfold splitWsGo at ht
    by_cases hsp : isSpaceChar c = true
    · rw [if_pos hsp] at ht
      by_cases hae : acc.isEmpty = true
      · rw [if_pos hae] at ht
        exact ih [] rfl t ht
      · rw [if_neg hae] at ht
        rcases List.mem_cons.mp ht with h | h
        · subst h
          refine ⟨by simpa using hae, ?_⟩
          rw [List.all_eq_true] at hacc ⊢
          intro x hx
          exact hacc x (List.mem_reverse.mp hx)
        · exact ih [] rfl t h
    · rw [if_neg hsp] at ht
      refine ih (c :: acc) ?_ t ht
      rw [List.all_eq_true] at hacc ⊢
      intro x hx
      rcases List.mem_cons.mp hx with h | h
      · subst h
        simpa using hsp
      · exact hacc x h

lemma mem_splitWs_props (s t : Str) (ht : t ∈ splitWs s) : strProps t :=
  splitWsGo_mem_props s [] rfl t ht

lemma splitWsGo_prepend (w : Str) (hw : w.all (fun c => !isSpaceChar c) = true) :
    ∀ (acc s : Str), splitWsGo acc (w ++ s) = splitWsGo (w.reverse ++ acc) s := by
  induction w with
  | nil => intro acc s; rfl
  | cons c w ih =>
    intro acc s
    have hc : isSpaceChar c = false := by
      rw [List.all_eq_true] at hw
      simpa using hw c (List.mem_cons_self c w)
    have hw' : w.all (fun c => !isSpaceChar c) = true := by
      rw [List.all_eq_true] at hw ⊢
      intro x hx
      exact hw x (List.mem_cons_of_mem c hx)
    show splitWsGo acc (c :: (w ++ s)) = _
    rw [splitWsGo]
    rw [if_neg (by simp [hc])]
    rw [ih hw' (c :: acc) s]
    congr 1
    simp

lemma splitWs_word_only (w : Str) (hp : strProps w) : splitWs w = [w] := by
  obtain ⟨hne, hall⟩ := hp
  unfold splitWs
  have : splitWsGo [] (w ++ []) = splitWsGo (w.reverse ++ []) [] :=
    splitWsGo_prepend w hall [] []
  rw [List.append_nil] at this
  rw [this]
  rw [splitWsGo]
  rw [if_neg (by simp [List.append_nil, hne])]
  simp

lemma splitWs_append_word (w rest : Str) (hp : strProps w) :
    splitWs (w ++ (' ' :: rest)) = w :: splitWs rest := by
  obtain ⟨hne, hall⟩ := hp
  unfold splitWs
  rw [splitWsGo_prepend w hall [] (' ' :: rest)]
  rw [splitWsGo]
  rw [if_pos (by decide)]
  rw [if_neg (by simp [List.append_nil, hne])]
  simp [splitWs]

lemma splitWs_joinSep : ∀ (parts : List Str), (∀ p ∈ parts, strProps p) →
    splitWs (joinSep [' '] parts) = parts := by
  intro parts
  induction parts with
  | nil => intro _; rfl
  | cons x xs ih =>
    intro h
    cases xs with
    | nil => exact splitWs_word_only x (h x (List.mem_cons_self x []))
    | cons y ys =>
      have hx := h x (List.mem_cons_self x (y :: ys))
      have hxs : ∀ p ∈ y :: ys, strProps p :=
        fun p hp => h p (List.mem_cons_of_mem x hp)
      show splitWs (x ++ [' '] ++ joinSep [' '] (y :: ys)) = _
      rw [List.append_assoc]
      show splitWs (x ++ (' ' :: joinSep [' '] (y :: ys))) = _
      rw [splitWs_append_word x _ hx, ih hxs]

lemma casePairs_not_space : ∀ p ∈ casePairs, isSpaceChar p.1 = false ∧
    isSpaceChar p.2 = false := by decide

lemma lowerChar_not_space (c : Char) (h : isSpaceChar c = false) :
    isSpaceChar (lowerChar c) = false := by
  unfold lowerChar
  cases hf : casePairs.find? (fun p => p.1 == c) with
  | none => simpa using h
  | some p =>
    have hp := List.mem_of_find?_eq_some hf
    simpa using (casePairs_not_space p hp).2

lemma upperChar_not_space (c : Char) (h : isSpaceChar c = false) :
    isSpaceChar (upperChar c) = false := by
  unfold upperChar
  cases hf : casePairs.find? (fun p => p.2 == c) with
  | none => simpa using h
  | some p =>
    have hp := List.mem_of_find?_eq_some hf
    simpa using (casePairs_not_space p hp).1

lemma dropWhile_of_all_not {p : Char → Bool} : ∀ (l : Str), l.all (fun c => !p c) = true →
    l.dropWhile p = l := by
  intro l hl
  cases l with
  | nil => rfl
  | cons c t =>
    rw [List.dropWhile_cons, if_neg]
    rw [List.all_eq_true] at hl
    have := hl c (List.mem_cons_self c t)
    simp at this
    simp [this]

lemma stripStr_of_nonspace (t : Str) (h : t.all (fun c => !isSpaceChar c) = true) :
    stripStr t = t := by
  unfold stripStr
  rw [dropWhile_of_all_not t h]
  rw [dropWhile_of_all_not t.reverse (by
    rw [List.all_eq_true] at h ⊢
    intro c hc
    exact h c (List.mem_reverse.mp hc))]
  exact List.reverse_reverse t

lemma upperStr_props (t : Str) (hp : strProps t) : strProps (upperStr t) := by
  obtain ⟨hne, hall⟩ := hp
  constructor
  · simpa [upperStr] using hne
  · rw [List.all_eq_true] at hall ⊢
    intro c hc
    rw [upperStr, List.mem_map] at hc
    obtain ⟨a, ha, rfl⟩ := hc
    simpa using upperChar_not_space a (by simpa using hall a ha)

lemma lowerStr_props_all (t : Str) (hall : t.all (fun c => !isSpaceChar c) = true) :
    (lowerStr t).all (fun c => !isSpaceChar c) = true := by
  rw [List.all_eq_true] at hall ⊢
  intro c hc
  rw [lowerStr, List.mem_map] at hc
  obtain ⟨a, ha, rfl⟩ := hc
  simpa using lowerChar_not_space a (by simpa using hall a ha)

lemma capitalizeStr_props (t : Str) (hp : strProps t) : strProps (capitalizeStr t) := by
  obtain ⟨hne, hall⟩ := hp
  cases t with
  | nil => exact absurd rfl hne
  | cons c t =>
    constructor
    · simp [capitalizeStr]
    · rw [capitalizeStr, List.all_cons]
      rw [List.all_cons] at hall
      simp only [Bool.and_eq_true] at hall ⊢
      obtain ⟨hc, ht⟩ := hall
      exact ⟨by simpa using upperChar_not_space c (by simpa using hc),
        lowerStr_props_all t ht⟩

lemma normalize_name_word_props (t : Str) (hp : strProps t) :
    strProps (normalize_name_word t) := by
  obtain ⟨hne, hall⟩ := hp
  unfold normalize_name_word
  rw [stripStr_of_nonspace t hall]
  by_cases hl : t.length ≤ 2
  · rw [if_pos hl]
    exact upperStr_props t ⟨hne, hall⟩
  · rw [if_neg hl]
    exact capitalizeStr_props t ⟨hne, hall⟩

lemma split_name_tokens_props (v t : Str) (ht : t ∈ split_name_tokens v) : strProps t := by
  unfold split_name_tokens at ht
  exact mem_splitWs_props v t (List.mem_filter.mp ht).1

lemma partsFromOpt_props (o : Option Str) : ∀ p ∈ partsFromOpt o, strProps p := by
  intro p hp
  cases o with
  | none => simp [partsFromOpt] at hp
  | some l =>
    simp only [partsFromOpt] at hp
    by_cases he : l.isEmpty = true
    · rw [if_pos he] at hp; simp at hp
    · rw [if_neg he] at hp
      cases htok : split_name_tokens l with
      | nil => rw [htok] at hp; simp at hp
      | cons t rest =>
        rw [htok] at hp
        simp only [List.mem_singleton] at hp
        subst hp
        exact normalize_name_word_props t
          (split_name_tokens_props l t (htok ▸ List.mem_cons_self t rest))

lemma partsFromFirst_props (middle o : Option Str) :
    ∀ p ∈ partsFromFirst middle o, strProps p := by
  intro p hp
  cases o with
  | none => simp [partsFromFirst] at hp
  | some f =>
    simp only [partsFromFirst] at hp
    by_cases he : f.isEmpty = true
    · rw [if_pos he] at hp; simp at hp
    · rw [if_neg he] at hp
      cases htok : split_name_tokens f with
      | nil => rw [htok] at hp; simp at hp
      | cons t rest =>
        cases rest with
        | nil =>
          rw [htok] at hp
          simp only [List.mem_singleton] at hp
          subst hp
          exact normalize_name_word_props t
            (split_name_tokens_props f t (htok ▸ List.mem_cons_self t []))
        | cons t2 rest2 =>
          rw [htok] at hp
          have ht : t ∈ split_name_tokens f := htok ▸ List.mem_cons_self t (t2 :: rest2)
          have ht2 : t2 ∈ split_name_tokens f :=
            htok ▸ List.mem_cons_of_mem t (List.mem_cons_self t2 rest2)
          rcases List.mem_append.mp hp with h | h
          · simp only [List.mem_singleton] at h
            subst h
            exact normalize_name_word_props t (split_name_tokens_props f t ht)
          · by_cases hm : optTruthy middle = true
            · rw [if_pos hm] at h; simp at h
            · rw [if_neg hm] at h
              simp only [List.mem_singleton] at h
              subst h
              exact normalize_name_word_props t2 (split_name_tokens_props f t2 ht2)

lemma cnsGo_props : ∀ (ls : List Str) (best current : List Str),
    (∀ w ∈ best, strProps w) → (∀ w ∈ current, strProps w) →
    ∀ w ∈ cnsGo best current ls, strProps w := by
  intro ls
  induction ls with
  | nil =>
    intro best current hb _ w hw
    exact hb w hw
  | cons line rest ih =>
    intro best current hb hc w hw
    unfold cnsGo at hw
    simp only [] at hw
    by_cases h1 : ((stripStr line).isEmpty || containsDigit (stripStr line)) = true
    · rw [if_pos h1] at hw
      exact ih best [] hb (by simp) w hw
    · rw [if_neg h1] at hw
      by_cases h2 : (split_name_tokens (stripStr line)).isEmpty = true
      · rw [if_pos h2] at hw
        exact ih best [] hb (by simp) w hw
      · rw [if_neg h2] at hw
        have htoks : ∀ t ∈ split_name_tokens (stripStr line), strProps t :=
          fun t ht => split_name_tokens_props _ t ht
        by_cases h3 : 3 ≤ (split_name_tokens (stripStr line)).length
        · rw [if_pos h3] at hw
          exact htoks w (List.mem_of_mem_take hw)
        · rw [if_neg h3] at hw
          set current1 := if (split_name_tokens (stripStr line)).length = 2 then
              split_name_tokens (stripStr line)
            else current ++ (split_name_tokens (stripStr line)).take 1 with hc1
          have hcur1 : ∀ w ∈ current1, strProps w := by
            intro x hx
            rw [hc1] at hx
            by_cases h4 : (split_name_tokens (stripStr line)).length = 2
            · rw [if_pos h4] at hx
              exact htoks x hx
            · rw [if_neg h4] at hx
              rcases List.mem_append.mp hx with h | h
              · exact hc x h
              · exact htoks x (List.mem_of_mem_take h)
          set current2 := if 3 < current1.length then
              current1.drop (current1.length - 3) else current1 with hc2
          have hcur2 : ∀ w ∈ current2, strProps w := by
            intro x hx
            rw [hc2] at hx
            by_cases h5 : 3 < current1.length
            · rw [if_pos h5] at hx
              exact hcur1 x (List.mem_of_mem_drop hx)
            · rw [if_neg h5] at hx
              exact hcur1 x hx
          set best1 := if best.length < current2.length then current2 else best with hb1
          have hbest1 : ∀ w ∈ best1, strProps w := by
            intro x hx
            rw [hb1] at hx
            by_cases h6 : best.length < current2.length
            · rw [if_pos h6] at hx
              exact hcur2 x hx
            · rw [if_neg h6] at hx
              exact hb x hx
          by_cases h7 : best1.length = 3
          · rw [if_pos h7] at hw
            exact hbest1 w hw
          · rw [if_neg h7] at hw
            exact ih best1 current2 hbest1 hcur2 w hw

lemma collect_name_sequence_props (lines : List Str) :
    ∀ w ∈ collect_name_sequence lines, strProps w :=
  cnsGo_props lines [] [] (by simp) (by simp)

lemma nameCandidateScan_shape : ∀ (L : List Str) (nm : Str),
    nameCandidateScan L = some nm →
    ∃ words : List Str, (∀ w ∈ words, strProps w) ∧ words.length = 3 ∧
      nm = joinSep [' '] words := by
  intro L
  induction L with
  | nil => intro nm h; simp [nameCandidateScan] at h
  | cons cand rest ih =>
    intro nm h
    unfold nameCandidateScan at h
    by_cases h1 : (stopWordsCandidate.any fun stop => containsSub (lowerStr cand) stop) = true
    · rw [if_pos h1] at h
      exact ih nm h
    · rw [if_neg h1] at h
      set words := (splitWs cand).filterMap (fun w =>
        if is_name_word w then some (normalize_name_word w) else none) with hwords
      by_cases h2 : words.length = 3
      · rw [if_pos h2] at h
        refine ⟨words, ?_, h2, (Option.some.injEq _ _ ▸ h).symm⟩
        intro w hw
        rw [hwords] at hw
        obtain ⟨a, ha, hfa⟩ := List.mem_filterMap.mp hw
        by_cases hn : is_name_word a = true
        · rw [if_pos hn] at hfa
          simp only [Option.some.injEq] at hfa
          subst hfa
          exact normalize_name_word_props a (mem_splitWs_props cand a ha)
        · rw [if_neg hn] at hfa
          simp at hfa
      · rw [if_neg h2] at h
        exact ih nm h

/-- Every successful result of `_extract_full_name` is a space-join of 3 name
parts (no missing part) or of 2 name parts (missing patronymic flagged). -/
lemma extract_full_name_shape (lines : List Str) (name : Str) (miss : List Str)
    (h : extract_full_name lines = (some name, miss)) :
    ∃ parts : List Str, (∀ p ∈ parts, strProps p) ∧ name = joinSep [' '] parts ∧
      ((miss = [] ∧ parts.length = 3) ∨ (miss = [otchestvoStr] ∧ parts.length = 2)) := by
  unfold extract_full_name at h
  simp only [] at h
  set last := extract_after_keyword ["фамил".data] lines with hlast
  set first := extract_after_keyword ["имя".data] lines with hfirst
  set middle := extract_after_keyword ["отч".data] lines with hmiddle
  set NP := partsFromOpt last ++ partsFromFirst middle first ++ partsFromOpt middle
    with hNP
  have hNPprops : ∀ p ∈ NP, strProps p := by
    intro p hp
    rw [hNP] at hp
    rcases List.mem_append.mp hp with hp | hp
    · rcases List.mem_append.mp hp with hp | hp
      · exact partsFromOpt_props last p hp
      · exact partsFromFirst_props middle first p hp
    · exact partsFromOpt_props middle p hp
  by_cases h2 : 2 ≤ NP.length
  · rw [if_pos h2] at h
    by_cases h3 : 3 ≤ NP.length
    · rw [if_pos h3] at h
      simp only [Prod.mk.injEq, Option.some.injEq] at h
      obtain ⟨hn, hm⟩ := h
      refine ⟨NP.take 3, fun p hp => hNPprops p (List.mem_of_mem_take hp), hn.symm,
        Or.inl ⟨hm.symm, ?_⟩⟩
      rw [List.length_take]
      omega
    · rw [if_neg h3] at h
      simp only [Prod.mk.injEq, Option.some.injEq] at h
      obtain ⟨hn, hm⟩ := h
      refine ⟨NP.take 2, fun p hp => hNPprops p (List.mem_of_mem_take hp), hn.symm,
        Or.inr ⟨hm.symm, ?_⟩⟩
      rw [List.length_take]
      omega
  · rw [if_neg h2] at h
    set NT := joinSep [' '] ((lines.map stripStr).filter (fun l => !l.isEmpty)) with hNT
    cases hscan : nameCandidateScan (findAllNameTriples NT.length NT) with
    | some nm =>
      rw [hscan] at h
      simp only [Prod.mk.injEq, Option.some.injEq] at h
      obtain ⟨hn, hm⟩ := h
      obtain ⟨words, hwp, hw3, hwj⟩ := nameCandidateScan_shape _ nm hscan
      exact ⟨words, hwp, hn ▸ hwj, Or.inl ⟨hm.symm, hw3⟩⟩
    | none =>
      rw [hscan] at h
      set SQ := collect_name_sequence lines with hSQ
      have hSQprops : ∀ w ∈ SQ.map normalize_name_word, strProps w := by
        intro w hw
        obtain ⟨a, ha, rfl⟩ := List.mem_map.mp hw
        exact normalize_name_word_props a (collect_name_sequence_props lines a ha)
      by_cases h4 : SQ.length = 3
      · rw [if_pos h4] at h
        simp only [Prod.mk.injEq, Option.some.injEq] at h
        obtain ⟨hn, hm⟩ := h
        refine ⟨SQ.map normalize_name_word, hSQprops, hn.symm, Or.inl ⟨hm.symm, ?_⟩⟩
        rw [List.length_map]
        exact h4
      · rw [if_neg h4] at h
        by_cases h5 : SQ.length = 2
        · rw [if_pos h5] at h
          simp only [Prod.mk.injEq, Option.some.injEq] at h
          obtain ⟨hn, hm⟩ := h
          refine ⟨SQ.map normalize_name_word, hSQprops, hn.symm, Or.inr ⟨hm.symm, ?_⟩⟩
          rw [List.length_map]
          exact h5
        · rw [if_neg h5] at h
          simp at h

lemma mem_dedupe_head (x : Str) (t : List Str) : x ∈ dedupeKeepFirst (x :: t) := by
  unfold dedupeKeepFirst dedupeGo
  rw [if_neg (by simp)]
  exact List.mem_cons_self _ _

lemma build_recognized (lines : List Str) :
    (build_passport_from_lines lines).recognized_fields =
    dedupeKeepFirst
      ((if optTruthy (extract_full_name lines).1 then [lblFio] else []) ++
       (if optTruthy (extract_series_number (joinSep ['\n'] lines)).1 then [lblSeria]
        else []) ++
       (if optTruthy (extract_series_number (joinSep ['\n'] lines)).2 then [lblNomer]
        else []) ++
       (if optTruthy (extract_issued_by lines) then [lblKemVydan] else []) ++
       (if (extract_issued_date (joinSep ['\n'] lines)).isSome then [lblDataVydachi]
        else []) ++
       (if optTruthy (extract_division_code (joinSep ['\n'] lines)) then [lblKod]
        else [])) := rfl

lemma build_warnings (lines : List Str) :
    (build_passport_from_lines lines).warnings =
    (if optTruthy (extract_full_name lines).1 && !(extract_full_name lines).2.isEmpty
     then [nameWarning (extract_full_name lines).2] else []) := rfl

lemma build_full_name (lines : List Str) :
    (build_passport_from_lines lines).full_name =
    (if optTruthy (extract_full_name lines).1 then (extract_full_name lines).1
     else none) := rfl

/-- Claim C8: a 2-part full name (surname and first name, no patronymic) is
accepted, counts as recognized, and produces exactly one warning about the
missing patronymic; a 3-part result produces zero warnings. -/
theorem C8_two_part_name_warning (lines : List Str) :
    ∀ name miss, extract_full_name lines = (some name, miss) →
      (miss = [] ∨ miss = [otchestvoStr]) ∧
      (miss = [] → (splitWs name).length = 3 ∧
        (build_passport_from_lines lines).warnings = []) ∧
      (miss = [otchestvoStr] → (splitWs name).length = 2 ∧
        (build_passport_from_lines lines).warnings = [nameWarning [otchestvoStr]]) ∧
      lblFio ∈ (build_passport_from_lines lines).recognized_fields ∧
      (build_passport_from_lines lines).full_name = some name := by
  intro name miss h
  obtain ⟨parts, hprops, hname, hcases⟩ := extract_full_name_shape lines name miss h
  have hsplit : splitWs name = parts := by
    rw [hname]
    exact splitWs_joinSep parts hprops
  have hne : name ≠ [] := by
    intro habs
    rw [habs] at hsplit
    have : parts.length = 0 := by rw [← hsplit]; rfl
    rcases hcases with ⟨_, hl⟩ | ⟨_, hl⟩ <;> omega
  have hfn1 : (extract_full_name lines).1 = some name := by rw [h]
  have hfn2 : (extract_full_name lines).2 = miss := by rw [h]
  have htruthy : optTruthy (extract_full_name lines).1 = true := by
    rw [hfn1]
    simp [optTruthy, hne]
  have hwarn : (build_passport_from_lines lines).warnings =
      (if miss.isEmpty then ([] : List Str) else [nameWarning miss]) := by
    rw [build_warnings, htruthy, hfn2]
    cases hm : miss.isEmpty <;> simp [hm]
  refine ⟨?_, ?_, ?_, ?_, ?_⟩
  · rcases hcases with ⟨hm, _⟩ | ⟨hm, _⟩
    · exact Or.inl hm
    · exact Or.inr hm
  · intro hm
    subst hm
    constructor
    · rw [hsplit]
      rcases hcases with ⟨_, hl⟩ | ⟨habs, _⟩
      · exact hl
      · simp at habs
    · rw [hwarn]; rfl
  · intro hm
    subst hm
    constructor
    · rw [hsplit]
      rcases hcases with ⟨habs, _⟩ | ⟨_, hl⟩
      · simp at habs
      · exact hl
    · rw [hwarn]; rfl
  · rw [build_recognized, htruthy]
    simp only [if_true]
    exact mem_dedupe_head lblFio _
  · rw [build_full_name, htruthy]
    simp only [if_true]
    exact hfn1

lemma upper_not_lower (c : Char) (h : isUpperCyr c = true) : isLowerCyr c = false := by
  simp [isUpperCyr] at h
  simp [isLowerCyr]
  omega

lemma upper_not_space (c : Char) (h : isUpperCyr c = true) : isSpaceChar c = false := by
  simp [isUpperCyr] at h
  simp [isSpaceChar]
  omega

lemma upper_not_digit (c : Char) (h : isUpperCyr c = true) : isDigitChar c = false := by
  simp [isUpperCyr] at h
  simp [isDigitChar]
  omega

lemma allcaps_nonspace (l : Str) (h : l.all isUpperCyr = true) :
    l.all (fun c => !isSpaceChar c) = true := by
  rw [List.all_eq_true] at h ⊢
  intro c hc
  simpa using upper_not_space c (by simpa using h c hc)

lemma allcaps_no_digit (l : Str) (h : l.all isUpperCyr = true) :
    containsDigit l = false := by
  rw [List.all_eq_true] at h
  unfold containsDigit
  simp only [List.any_eq_false]
  intro c hc
  simp [upper_not_digit c (by simpa using h c hc)]

lemma takeWhile_lower_nil (t : Str) (h : ∀ c ∈ t, isLowerCyr c = false) :
    t.takeWhile isLowerCyr = [] := by
  cases t with
  | nil => rfl
  | cons c t =>
    rw [List.takeWhile_cons, if_neg]
    simp [h c (List.mem_cons_self c t)]

lemma matchCapWord_none_of_no_lower (s : Str) (h : ∀ c ∈ s, isLowerCyr c = false) :
    matchCapWord s = none := by
  cases s with
  | nil => rfl
  | cons c t =>
    rw [show matchCapWord (c :: t) =
      (if isUpperCyr c then
        (if (t.takeWhile isLowerCyr).isEmpty then none
         else some (c :: t.takeWhile isLowerCyr, t.drop (t.takeWhile isLowerCyr).length))
       else none) from rfl]
    by_cases hu : isUpperCyr c = true
    · rw [if_pos hu]
      rw [takeWhile_lower_nil t (fun x hx => h x (List.mem_cons_of_mem c hx))]
      rfl
    · rw [if_neg hu]

lemma matchNameTriple_none (s : Str) (h : matchCapWord s = none) :
    matchNameTriple s = none := by
  unfold matchNameTriple
  rw [h]

lemma findAllNameTriples_nil_of_no_lower : ∀ (fuel : Nat) (s : Str),
    (∀ c ∈ s, isLowerCyr c = false) → findAllNameTriples fuel s = [] := by
  intro fuel
  induction fuel with
  | zero => intro s _; cases s <;> rfl
  | succ n ih =>
    intro s hs
    cases s with
    | nil => rfl
    | cons c t =>
      unfold findAllNameTriples
      rw [matchNameTriple_none _ (matchCapWord_none_of_no_lower _ hs)]
      exact ih t (fun x hx => hs x (List.mem_cons_of_mem c hx))

lemma mem_joinSep : ∀ (l : List Str) (sep : Str) (c : Char), c ∈ joinSep sep l →
    c ∈ sep ∨ ∃ x ∈ l, c ∈ x := by
  intro l
  induction l with
  | nil => intro sep c hc; simp [joinSep] at hc
  | cons x xs ih =>
    intro sep c hc
    cases xs with
    | nil =>
      right
      exact ⟨x, List.mem_cons_self x [], hc⟩
    | cons y ys =>
      rw [show joinSep sep (x :: y :: ys) = x ++ sep ++ joinSep sep (y :: ys) from rfl]
        at hc
      rcases List.mem_append.mp hc with hc | hc
      · rcases List.mem_append.mp hc with hc | hc
        · exact Or.inr ⟨x, List.mem_cons_self x _, hc⟩
        · exact Or.inl hc
      · rcases ih sep c hc with hc | ⟨z, hz, hcz⟩
        · exact Or.inl hc
        · exact Or.inr ⟨z, List.mem_cons_of_mem x hz, hcz⟩

lemma mem_stripStr (l : Str) (c : Char) (hc : c ∈ stripStr l) : c ∈ l := by
  unfold stripStr at hc
  rw [List.mem_reverse] at hc
  have h1 := List.Sublist.mem hc (List.dropWhile_sublist _)
  rw [List.mem_reverse] at h1
  exact List.Sublist.mem h1 (List.dropWhile_sublist _)

lemma extract_after_keyword_mem : ∀ (kws ls : List Str) (r : Str),
    extract_after_keyword kws ls = some r → ∃ l ∈ ls, r = stripStr l := by
  intro kws ls
  induction ls with
  | nil => intro r h; simp [extract_after_keyword] at h
  | cons line rest ih =>
    intro r h
    unfold extract_after_keyword at h
    by_cases h1 : (kws.any fun kw => containsSub (lowerStr line) kw) = true
    · rw [if_pos h1] at h
      cases hg : firstGoodTail kws (rest.take 2) with
      | some t =>
        rw [hg] at h
        simp only [Option.some.injEq] at h
        subst h
        unfold firstGoodTail at hg
        cases hf : (rest.take 2).find? (fun tail =>
            !(kws.any fun kw => containsSub (lowerStr tail) kw) && !containsDigit tail) with
        | none => rw [hf] at hg; simp at hg
        | some t0 =>
          rw [hf] at hg
          simp only [Option.some.injEq] at hg
          have ht0 : t0 ∈ rest := List.mem_of_mem_take (List.mem_of_find?_eq_some hf)
          exact ⟨t0, List.mem_cons_of_mem line ht0, hg.symm⟩
      | none =>
        rw [hg] at h
        obtain ⟨l, hl, hr⟩ := ih r h
        exact ⟨l, List.mem_cons_of_mem line hl, hr⟩
    · rw [if_neg h1] at h
      obtain ⟨l, hl, hr⟩ := ih r h
      exact ⟨l, List.mem_cons_of_mem line hl, hr⟩

lemma allcaps_split_name_tokens (l : Str) (hne : l ≠ []) (hcaps : l.all isUpperCyr = true) :
    split_name_tokens l = [] := by
  have hns := allcaps_nonspace l hcaps
  have hmc : matchCapWord l = none := by
    apply matchCapWord_none_of_no_lower
    intro c hc
    rw [List.all_eq_true] at hcaps
    exact upper_not_lower c (by simpa using hcaps c hc)
  have hnw : is_name_word l = false := by
    unfold is_name_word
    rw [hmc]
  unfold split_name_tokens
  rw [splitWs_word_only l ⟨hne, hns⟩]
  simp [hnw]

lemma cnsGo_allcaps : ∀ (ls : List Str) (best current : List Str),
    (∀ l ∈ ls, l ≠ [] ∧ l.all isUpperCyr = true) → cnsGo best current ls = best := by
  intro ls
  induction ls with
  | nil => intro best current _; rfl
  | cons line rest ih =>
    intro best current h
    obtain ⟨hne, hcaps⟩ := h line (List.mem_cons_self line rest)
    have hstrip : stripStr line = line := stripStr_of_nonspace line (allcaps_nonspace line hcaps)
    unfold cnsGo
    simp only [hstrip]
    rw [if_neg (by simp [hne, allcaps_no_digit line hcaps])]
    rw [allcaps_split_name_tokens line hne hcaps]
    rw [if_pos (show ([] : List Str).isEmpty = true from rfl)]
    exact ih best [] (fun l hl => h l (List.mem_cons_of_mem line hl))

lemma allcaps_partsFromOpt (lines : List Str)
    (h : ∀ l ∈ lines, l ≠ [] ∧ l.all isUpperCyr = true) (o : Option Str)
    (ho : ∀ r, o = some r → ∃ l ∈ lines, r = stripStr l) : partsFromOpt o = [] := by
  cases o with
  | none => rfl
  | some r =>
    obtain ⟨l, hl, hr⟩ := ho r rfl
    obtain ⟨hne, hcaps⟩ := h l hl
    have hstrip : stripStr l = l := stripStr_of_nonspace l (allcaps_nonspace l hcaps)
    rw [hstrip] at hr
    rw [hr]
    simp only [partsFromOpt]
    rw [if_neg (by simp [hne])]
    rw [allcaps_split_name_tokens l hne hcaps]

lemma allcaps_partsFromFirst (lines : List Str)
    (h : ∀ l ∈ lines, l ≠ [] ∧ l.all isUpperCyr = true) (middle o : Option Str)
    (ho : ∀ r, o = some r → ∃ l ∈ lines, r = stripStr l) :
    partsFromFirst middle o = [] := by
  cases o with
  | none => rfl
  | some r =>
    obtain ⟨l, hl, hr⟩ := ho r rfl
    obtain ⟨hne, hcaps⟩ := h l hl
    have hstrip : stripStr l = l := stripStr_of_nonspace l (allcaps_nonspace l hcaps)
    rw [hstrip] at hr
    rw [hr]
    simp only [partsFromFirst]
    rw [if_neg (by simp [hne])]
    rw [allcaps_split_name_tokens l hne hcaps]

/-- Claim C7 (amended) core: on lines made solely of all-uppercase Cyrillic
words, full-name extraction finds nothing: the qualifying tokens of the third
fallback are capitalized words, not all-caps ones. -/
lemma extract_full_name_allcaps (lines : List Str)
    (h : ∀ l ∈ lines, l ≠ [] ∧ l.all isUpperCyr = true) :
    extract_full_name lines = (none, []) := by
  unfold extract_full_name
  simp only []
  rw [allcaps_partsFromOpt lines h _ (fun r hr => extract_after_keyword_mem _ lines r hr)]
  rw [allcaps_partsFromFirst lines h _ _
    (fun r hr => extract_after_keyword_mem _ lines r hr)]
  rw [allcaps_partsFromOpt lines h _ (fun r hr => extract_after_keyword_mem _ lines r hr)]
  rw [if_neg (by simp)]
  have hNT : ∀ c ∈ joinSep [' '] ((lines.map stripStr).filter (fun l => !l.isEmpty)),
      isLowerCyr c = false := by
    intro c hc
    rcases mem_joinSep _ [' '] c hc with hc | ⟨x, hx, hcx⟩
    · simp only [List.mem_singleton] at hc
      subst hc
      decide
    · obtain ⟨hx1, _⟩ := List.mem_filter.mp hx
      obtain ⟨l, hl, rfl⟩ := List.mem_map.mp hx1
      have hcl : c ∈ l := mem_stripStr l c hcx
      obtain ⟨_, hcaps⟩ := h l hl
      rw [List.all_eq_true] at hcaps
      exact upper_not_lower c (by simpa using hcaps c hcl)
  rw [findAllNameTriples_nil_of_no_lower _ _ hNT]
  show (match nameCandidateScan [] with
    | some name => (some name, [])
    | none => _) = (none, [])
  rw [show nameCandidateScan [] = none from rfl]
  rw [show collect_name_sequence lines = [] from cnsGo_allcaps lines [] [] h]
  rfl

/-- Claim C7 counterexample: three consecutive lines, each a single
all-uppercase word of length ≥ 3 — the claimed all-caps heuristic would
return the 3-token name, but the code's third fallback only accepts
capitalized words, so extraction returns nothing. -/
theorem C7_counterexample :
    ("ИВАНОВ".data.all isUpperCyr = true ∧ 3 ≤ "ИВАНОВ".data.length) ∧
    ("ИВАН".data.all isUpperCyr = true ∧ 3 ≤ "ИВАН".data.length) ∧
    ("ИВАНОВИЧ".data.all isUpperCyr = true ∧ 3 ≤ "ИВАНОВИЧ".data.length) ∧
    collect_name_sequence ["ИВАНОВ".data, "ИВАН".data, "ИВАНОВИЧ".data] = [] ∧
    extract_full_name ["ИВАНОВ".data, "ИВАН".data, "ИВАНОВИЧ".data] = (none, []) := by
  decide

/-- Claim C7 (amended): the third full-name fallback collects consecutive
runs of capitalized name tokens (`[А-ЯЁ][а-яё]+`, optionally hyphenated),
breaking at lines with digits or without a qualifying token, keeps the
longest run capped at 3, and accepts a 2- or 3-token result; all-uppercase
words of length ≥ 3 never qualify, so line lists made solely of all-uppercase
words yield no name, while consecutive capitalized one-word lines do. -/
theorem C7_third_fallback_capitalized :
    (∀ w : Str, w.all isUpperCyr = true → is_name_word w = false) ∧
    (∀ lines : List Str, (∀ l ∈ lines, l ≠ [] ∧ l.all isUpperCyr = true) →
      collect_name_sequence lines = [] ∧ extract_full_name lines = (none, [])) ∧
    collect_name_sequence ["Иванов".data, "Иван".data] = ["Иванов".data, "Иван".data] ∧
    extract_full_name ["Иванов".data, "Иван".data] =
      (some ("Иванов Иван".data), [otchestvoStr]) := by
  refine ⟨?_, ?_, by decide, by decide⟩
  · intro w hcaps
    have hmc : matchCapWord w = none := by
      apply matchCapWord_none_of_no_lower
      intro c hc
      rw [List.all_eq_true] at hcaps
      exact upper_not_lower c (by simpa using hcaps c hc)
    unfold is_name_word
    rw [hmc]
  · intro lines h
    exact ⟨cnsGo_allcaps lines [] [] h, extract_full_name_allcaps lines h⟩

theorem C7_third_fallback_capitalized_witness :
    is_name_word ("МВД".data) = false ∧
    collect_name_sequence ["ПЕТРОВ".data, "СИДОРОВ".data] = [] ∧
    extract_full_name ["ПЕТРОВ".data, "СИДОРОВ".data] = (none, []) := by
  refine ⟨C7_third_fallback_capitalized.1 ("МВД".data) (by decide), ?_, ?_⟩
  · exact (C7_third_fallback_capitalized.2.1 ["ПЕТРОВ".data, "СИДОРОВ".data]
      (by decide)).1
  · exact (C7_third_fallback_capitalized.2.1 ["ПЕТРОВ".data, "СИДОРОВ".data]
      (by decide)).2

def c8LinesTwo : List Str :=
  ["Фамилия".data, "Иванов".data, "Имя".data, "Иван".data]

theorem C8_two_part_name_warning_witness :
    (build_passport_from_lines c8LinesTwo).warnings =
      [nameWarning [otchestvoStr]] ∧
    (splitWs ("Иванов Иван".data)).length = 2 ∧
    lblFio ∈ (build_passport_from_lines c8LinesTwo).recognized_fields := by
  have h := C8_two_part_name_warning c8LinesTwo ("Иванов Иван".data) [otchestvoStr]
    (by decide)
  obtain ⟨_, _, h2, h3, _⟩ := h
  obtain ⟨hlen, hw⟩ := h2 rfl
  exact ⟨hw, hlen, h3⟩

end DocBot
